import Mathlib

/-
Verification of the otelstor trace-storage engine (store/store.go) against its
specification.  The Go code is shallowly embedded: byte strings become
`List Nat`, the bbolt database becomes nested sorted association lists,
machine integers become `Nat`/`Int` with explicit wrap where it matters, and
fallible operations return `Option`.  Stored record values are represented by
their decode result (`Option Span`): `some sp` models a record whose
compressed protobuf decodes to the span `sp`, `none` models a corrupt record
(decodeSpan failure).  Calendar computations (Go's time package, which the
repository calls but does not contain) are modelled from the spec as a
proleptic Gregorian calendar in UTC using the standard civil-from-days and
days-from-civil algorithms.
-/

set_option maxHeartbeats 4000000

namespace OtelStor

/-! ## Byte strings and their bytewise lexicographic order (Go bytes.Compare) -/

/-- Bytewise lexicographic comparison, as Go's bytes.Compare: compare
element-wise, a proper leading sub-list is smaller. -/
def bytesCmp : List Nat → List Nat → Ordering
  | [], [] => .eq
  | [], _ :: _ => .lt
  | _ :: _, [] => .gt
  | a :: as, b :: bs =>
    if a < b then .lt
    else if b < a then .gt
    else bytesCmp as bs

def bytesLt (a b : List Nat) : Prop := bytesCmp a b = Ordering.lt

instance (a b : List Nat) : Decidable (bytesLt a b) := by
  unfold bytesLt; infer_instance

/-! ## Keys (store.go makeKey, timeBoundKey)

A ULID is 6 bytes of big-endian millisecond timestamp followed by 10 random
bytes; `ulid.New` fails when the timestamp exceeds 2^48-1 (ErrBigTime).
A record key is the 16 ULID bytes followed by the 8-byte span id. -/

/-- The six big-endian timestamp bytes of a ULID: byte i is `ms >> (40-8i) & 0xff`
(divisors are 2^40, 2^32, 2^24, 2^16, 2^8). -/
def msBytes (ms : Nat) : List Nat :=
  [ms / 1099511627776 % 256, ms / 4294967296 % 256, ms / 16777216 % 256,
   ms / 65536 % 256, ms / 256 % 256, ms % 256]

/-- store.go:100-111, the span-id tail: `copy(sid[:], spanID)` zero-pads a short
span id on the right and truncates a long one to 8 bytes. -/
def pad8 (spanID : List Nat) : List Nat :=
  spanID.take 8 ++ List.replicate (8 - spanID.length) 0

/-- store.go:100-111 makeKey: 16-byte ULID of the start-time millisecond (with
the given 10 entropy bytes) followed by the padded 8-byte span id; fails when
the millisecond timestamp does not fit in 48 bits (ulid.ErrBigTime). -/
def makeKey (ms : Nat) (entropy : List Nat) (spanID : List Nat) : Option (List Nat) :=
  if ms < 281474976710656 then some (msBytes ms ++ entropy ++ pad8 spanID) else none

/-- store.go:483-496 timeBoundKey: 6 timestamp bytes (`byte(ms >> 40)` ...
`byte(ms)`, i.e. the low 48 bits big-endian) followed by 18 fill bytes. -/
def timeBoundKey (ms : Nat) (fill : Nat) : List Nat :=
  msBytes ms ++ List.replicate 18 fill

/-! ## Civil calendar (modelled from the spec: Go's time package is not part of
the repository; month partitions are named by the calendar year-month of the
span start time, formatted YYYY-MM, in UTC).  We use the standard
civil-from-days algorithm (Euclidean `/` on Int already rounds toward negative
infinity for positive divisors, so no pre-shift of negative numerators is
needed). -/

/-- Year of era (0..399) from day of era (0..146096). -/
def yoeOfDoe (doe : Int) : Int :=
  (doe - doe / 1460 + doe / 36524 - doe / 146096) / 365

/-- Day of year (0 = March 1) from day of era. -/
def doyOfDoe (doe : Int) : Int :=
  doe - (365 * yoeOfDoe doe + yoeOfDoe doe / 4 - yoeOfDoe doe / 100)

/-- (year, month) within a 400-year era, March-based months folded back to the
civil January-based year. -/
def ymOfDoe (era doe : Int) : Int × Int :=
  let y := yoeOfDoe doe + era * 400
  let mp := (5 * doyOfDoe doe + 2) / 153
  let m := mp + (if mp < 10 then 3 else -9)
  ((if m ≤ 2 then y + 1 else y), m)

/-- Civil (year, month) from days since 1970-01-01. -/
def civilYM (z : Int) : Int × Int :=
  let z' := z + 719468
  let era := z' / 146097
  ymOfDoe era (z' - era * 146097)

/-- Linear month index: 12 * year + (month - 1).  Used to enumerate the months
overlapping a time window (store.go monthsInRange). -/
def monthIdx (z : Int) : Int :=
  12 * (civilYM z).1 + (civilYM z).2 - 1

/-- Month index within an era, as a function of the day of era alone. -/
def gIdx (doe : Int) : Int :=
  12 * yoeOfDoe doe + (5 * doyOfDoe doe + 2) / 153 + 2

/-- Days since the Unix epoch of a nanosecond timestamp (floor). -/
def daysOfNanos (t : Int) : Int := t / 86400000000000

/-- ulid.Timestamp: the millisecond count as a uint64
(`uint64(t.Unix())*1000 + uint64(t.Nanosecond()/1e6)` wraps modulo 2^64;
for non-negative times this is just floor division by 10^6). -/
def msOfNanos (t : Int) : Nat := ((t / 1000000) % 18446744073709551616).toNat

/-- Inverse direction (modelled from the spec, Go time.Date): days since the
Unix epoch of a civil date, standard days-from-civil algorithm. -/
def daysFromCivil (y m d : Int) : Int :=
  let yy := if m ≤ 2 then y - 1 else y
  let era := yy / 400
  let yoe := yy - era * 400
  let mp := if 2 < m then m - 3 else m + 9
  let doy := (153 * mp + 2) / 5 + d - 1
  let doe := yoe * 365 + yoe / 4 - yoe / 100 + doy
  era * 146097 + doe - 719468

/-! ## Month-name formatting and parsing -/

def digitChar (n : Nat) : Char := Char.ofNat (48 + n)

/-- Four-digit zero-padded year (Go's Format for years 0..9999). -/
def pad4 (y : Int) : String :=
  if 0 ≤ y ∧ y < 10000 then
    String.mk [digitChar (y.toNat / 1000), digitChar (y.toNat / 100 % 10),
               digitChar (y.toNat / 10 % 10), digitChar (y.toNat % 10)]
  else toString y

/-- Two-digit zero-padded month. -/
def pad2 (m : Int) : String :=
  if 0 ≤ m ∧ m < 100 then
    String.mk [digitChar (m.toNat / 10), digitChar (m.toNat % 10)]
  else toString m

/-- `YYYY-MM` format of a (year, month) pair (Go t.Format of layout year-month). -/
def ymStr (y m : Int) : String := pad4 y ++ "-" ++ pad2 m

/-- The month-bucket name of a day count: `YYYY-MM` of its civil date. -/
def monthStr (z : Int) : String := ymStr (civilYM z).1 (civilYM z).2

/-- The month-bucket name of a nanosecond timestamp (t.Format of the UTC time). -/
def monthOfNanos (t : Int) : String := monthStr (daysOfNanos t)

def intRange (lo hi : Int) : List Int :=
  (List.range (hi + 1 - lo).toNat).map (fun (k : Nat) => lo + (k : Int))

/-- store.go:498-508 monthsInRange: the `YYYY-MM` names of every month
overlapping [f, t]; the Go loop steps a date from the first day of f's month
to the first day of t's month one month at a time, i.e. it enumerates linear
month indices. -/
def monthsInRange (f t : Int) : List String :=
  (intRange (monthIdx (daysOfNanos f)) (monthIdx (daysOfNanos t))).map
    (fun i => ymStr (i / 12) (i % 12 + 1))

/-- Byte-wise string comparison on the character lists (Go compares strings as
byte strings; month names are ASCII so code-point order used here agrees). -/
def charsCmp : List Char → List Char → Ordering
  | [], [] => .eq
  | [], _ :: _ => .lt
  | _ :: _, [] => .gt
  | a :: as, b :: bs =>
    if a < b then .lt
    else if b < a then .gt
    else charsCmp as bs

def strLt (a b : String) : Prop := charsCmp a.data b.data = Ordering.lt

instance (a b : String) : Decidable (strLt a b) := by
  unfold strLt; infer_instance

/-- time.Parse of layout `2006-01`: exactly four digits, a dash, two digits,
month in 1..12 (Go validates the month range). -/
def digitVal (c : Char) : Option Nat :=
  if 48 ≤ c.toNat ∧ c.toNat ≤ 57 then some (c.toNat - 48) else none

def parseMonth (s : String) : Option (Int × Int) :=
  match s.data with
  | [c1, c2, c3, c4, dash, c5, c6] =>
    match digitVal c1, digitVal c2, digitVal c3, digitVal c4,
        digitVal c5, digitVal c6 with
    | some v1, some v2, some v3, some v4, some v5, some v6 =>
      if dash = '-' then
        let mo : Int := (v5 * 10 + v6 : Nat)
        if 1 ≤ mo ∧ mo ≤ 12 then
          some (((v1 * 1000 + v2 * 100 + v3 * 10 + v4 : Nat) : Int), mo)
        else none
      else none
    | _, _, _, _, _, _ => none
  | _ => none

/-- store.go:556: `time.Date(t.Year(), t.Month()+1, 1, 0, 0, 0, 0, time.UTC)`,
the first instant of the following calendar month, in nanoseconds since the
epoch (month 13 normalises to January of the next year). -/
def endOfMonthNanos (y mo : Int) : Int :=
  86400000000000 *
    daysFromCivil (if mo = 12 then y + 1 else y) (if mo = 12 then 1 else mo + 1) 1

/-! ## OTLP data model (the fields of tracev1 the store reads) -/

/-- opentelemetry AnyValue, collapsed to what serviceName inspects:
`GetStringValue` returns the string payload for a string value and the empty
string for every other shape. -/
inductive AnyValue where
  | strVal (s : String)
  | intVal (n : Int)
  | boolVal (b : Bool)
  | otherVal
deriving DecidableEq, Repr

structure KeyValue where
  key : String
  value : Option AnyValue
deriving DecidableEq, Repr

structure Resource where
  attributes : List KeyValue
deriving DecidableEq, Repr

/-- One span, with the fields store.go reads.  `statusCode` stands for
`int32(span.Status.GetCode())` (0 when the status message is absent). -/
structure Span where
  traceId : List Nat
  spanId : List Nat
  parentSpanId : List Nat
  name : String
  startTimeUnixNano : Nat
  endTimeUnixNano : Nat
  statusCode : Int
deriving DecidableEq, Repr

structure ScopeSpans where
  spans : List Span
deriving DecidableEq, Repr

structure ResourceSpans where
  resource : Option Resource
  scopeSpans : List ScopeSpans
deriving DecidableEq, Repr

/-- proto GetStringValue on a possibly-absent value. -/
def getStringValue : Option AnyValue → String
  | some (.strVal s) => s
  | _ => ""

/-- store.go:588-598 serviceName: the string value of the first `service.name`
resource attribute; `unknown` when the resource is absent or no attribute has
that key. -/
def serviceName (rs : ResourceSpans) : String :=
  match rs.resource with
  | none => "unknown"
  | some r =>
    match r.attributes.find? (fun a => a.key == "service.name") with
    | some attr => getStringValue attr.value
    | none => "unknown"

/-- store.go:600-605 spanStartTime: the span's start instant, or `now` when the
recorded start time is zero. -/
def spanStartTime (sp : Span) (now : Nat) : Nat :=
  if 0 < sp.startTimeUnixNano then sp.startTimeUnixNano else now

/-- encoding/hex digits (lowercase). -/
def hexDigit (n : Nat) : Char :=
  if n < 10 then Char.ofNat (48 + n) else Char.ofNat (87 + n)

/-- hex.EncodeToString: two lowercase hex digits per byte. -/
def hexEncode (bs : List Nat) : String :=
  String.mk (bs.flatMap (fun b => [hexDigit (b / 16), hexDigit (b % 16)]))

/-- store.go:154-180 SpanSummary and buildSummary.  Times are kept as
nanosecond counts (`time.Unix(0, int64(n))`); `spanRecord` stands for the
re-marshalled span bytes (`SpanProto`), represented by the span value itself. -/
structure SpanSummary where
  traceID : String
  spanID : String
  parentSpanID : String
  name : String
  month : String
  startNanos : Int
  endNanos : Int
  status : Int
  spanRecord : Span
deriving DecidableEq, Repr

def buildSummary (sp : Span) (month : String) : SpanSummary :=
  { traceID := hexEncode sp.traceId
    spanID := hexEncode sp.spanId
    parentSpanID := hexEncode sp.parentSpanId
    name := sp.name
    month := month
    startNanos := (sp.startTimeUnixNano : Int)
    endNanos := (sp.endTimeUnixNano : Int)
    status := sp.statusCode
    spanRecord := sp }

/-! ## The store: nested sorted association lists

bbolt keeps bucket names and keys in sorted order; a bucket is modelled as an
association list sorted strictly ascending (the well-formedness predicates
below).  A stored value is modelled by its decode result. -/

abbrev EntryList := List (List Nat × Option Span)
abbrev MonthList := List (String × EntryList)
abbrev Store := List (String × MonthList)

def lookupSvc (st : Store) (svc : String) : Option MonthList :=
  (st.find? (fun p => p.1 == svc)).map (fun p => p.2)

def lookupMonth (ml : MonthList) (m : String) : Option EntryList :=
  (ml.find? (fun q => q.1 == m)).map (fun q => q.2)

/-- Key lookup inside one service's month list. -/
def lookupMK (ml : MonthList) (m : String) (k : List Nat) : Option (Option Span) :=
  match lookupMonth ml m with
  | none => none
  | some es => (es.find? (fun e => bytesCmp e.1 k == Ordering.eq)).map (fun e => e.2)

def lookupKey (st : Store) (svc m : String) (k : List Nat) : Option (Option Span) :=
  match lookupSvc st svc with
  | none => none
  | some ml => lookupMK ml m k

/-- bolt Put inside one bucket: insert at the sorted position, replacing an
equal key. -/
def insertEntry (k : List Nat) (v : Option Span) : EntryList → EntryList
  | [] => [(k, v)]
  | e :: rest =>
    match bytesCmp k e.1 with
    | .lt => (k, v) :: e :: rest
    | .eq => (k, v) :: rest
    | .gt => e :: insertEntry k v rest

/-- CreateBucketIfNotExists for the month bucket followed by Put. -/
def insertMonthRec (month : String) (k : List Nat) (v : Option Span) :
    MonthList → MonthList
  | [] => [(month, [(k, v)])]
  | q :: rest =>
    if month = q.1 then (q.1, insertEntry k v q.2) :: rest
    else if strLt month q.1 then (month, [(k, v)]) :: q :: rest
    else q :: insertMonthRec month k v rest

/-- CreateBucketIfNotExists for the service bucket followed by the month-level
insert. -/
def putRecord (st : Store) (svc month : String) (k : List Nat) (v : Option Span) :
    Store :=
  match st with
  | [] => [(svc, insertMonthRec month k v [])]
  | p :: rest =>
    if svc = p.1 then (p.1, insertMonthRec month k v p.2) :: rest
    else if strLt svc p.1 then (svc, insertMonthRec month k v []) :: p :: rest
    else p :: putRecord rest svc month k v

/-- Records in one service's month list, summed over its months. -/
def mlCount (ml : MonthList) : Nat := (ml.map (fun q => q.2.length)).sum

/-- Total records currently stored for a service, summed over its months. -/
def svcCount (st : Store) (svc : String) : Nat :=
  match lookupSvc st svc with
  | none => 0
  | some ml => mlCount ml

/-! ## Write path (store.go:45-111 WriteResourceSpans) -/

/-- The spans of a batch in iteration order across scopes. -/
def allSpans (rs : ResourceSpans) : List Span :=
  rs.scopeSpans.flatMap (fun s => s.spans)

/-- The (month, key, span) triples a write produces, consuming one 10-byte
entropy string per span (crypto/rand via ulid.New); fails when entropy is
exhausted or a start time exceeds the 48-bit ULID range. -/
def writeEntries (now : Nat) : List Span → List (List Nat) →
    Option (List (String × List Nat × Span))
  | [], _ => some []
  | _ :: _, [] => none
  | sp :: sps, ent :: ents =>
    let t := spanStartTime sp now
    match makeKey (msOfNanos (t : Int)) ent sp.spanId with
    | none => none
    | some k =>
      (writeEntries now sps ents).map
        (fun rest => (monthOfNanos (t : Int), k, sp) :: rest)

/-- store.go:48-98 WriteResourceSpans: one stored record per span, inserted
under service / month / key inside a single transaction (the fold); each
stored value decodes back to its span, so it is modelled by `some span`. -/
def writeResourceSpans (st : Store) (rs : ResourceSpans) (now : Nat)
    (ents : List (List Nat)) : Option Store :=
  (writeEntries now (allSpans rs) ents).map
    (fun es => es.foldl
      (fun s e => putRecord s (serviceName rs) e.1 e.2.1 (some e.2.2)) st)

/-! ## GetSpans (store.go:193-239) -/

/-- Insertion into a descending-sorted string list (sort.Reverse StringSlice). -/
def insertDesc (x : String) : List String → List String
  | [] => [x]
  | y :: ys => if strLt y x then x :: y :: ys else y :: insertDesc x ys

def sortDescStr (l : List String) : List String := l.foldr insertDesc []

/-- The reverse-cursor walk inside one month bucket: called on the reversed
entry list; stops when the limit is reached, skips records that fail to
decode, and appends a (key, summary) pair otherwise. -/
def takeRev (limit : Nat) (month : String)
    (acc : List (List Nat × SpanSummary)) : EntryList → List (List Nat × SpanSummary)
  | [] => acc
  | e :: rest =>
    if limit ≤ acc.length then acc
    else
      match e.2 with
      | none => takeRev limit month acc rest
      | some sp => takeRev limit month (acc ++ [(e.1, buildSummary sp month)]) rest

/-- The month loop of GetSpans: months visited in the given order, stopping
once the limit is reached. -/
def getSpansGo (ml : MonthList) (limit : Nat)
    (acc : List (List Nat × SpanSummary)) : List String → List (List Nat × SpanSummary)
  | [] => acc
  | m :: ms =>
    if limit ≤ acc.length then acc
    else
      match lookupMonth ml m with
      | none => getSpansGo ml limit acc ms
      | some es => getSpansGo ml limit (takeRev limit m acc es.reverse) ms

/-- store.go:198-199: a non-positive limit defaults to 50. -/
def effLimit (n : Int) : Nat := if n ≤ 0 then 50 else n.toNat

/-- GetSpans keeping the stored key next to each produced summary (the key is
in hand when the summary is built; the Go function returns the summaries
only). -/
def getSpansKeyed (st : Store) (svc : String) (n : Int) :
    List (List Nat × SpanSummary) :=
  match lookupSvc st svc with
  | none => []
  | some ml => getSpansGo ml (effLimit n) [] (sortDescStr (ml.map (fun q => q.1)))

/-- store.go:197-239 GetSpans. -/
def getSpans (st : Store) (svc : String) (n : Int) : List SpanSummary :=
  (getSpansKeyed st svc n).map (fun p => p.2)

/-! ## GetTraceByID (store.go:360-389) -/

/-- store.go:363-389 GetTraceByID: scan every service and month bucket, skip
undecodable records, keep records whose lowercase-hex trace id equals the
argument string.  The Go callbacks always return nil, so the only error result
is the engine's own; the model returns the collected summaries. -/
def getTraceByID (st : Store) (q : String) : List SpanSummary :=
  st.flatMap (fun p => p.2.flatMap (fun mq => mq.2.filterMap (fun e =>
    match e.2 with
    | none => none
    | some sp =>
      if hexEncode sp.traceId = q then some (buildSummary sp mq.1) else none)))

/-! ## GetSpanTree (store.go:391-477) -/

/-- The cursor scan of findSpanByID inside one month bucket: first key of
length 24 whose 8-byte tail equals the argument and whose value decodes;
a matching key with an undecodable value is skipped and the scan continues. -/
def findInEntries (sid : List Nat) (month : String) : EntryList → Option SpanSummary
  | [] => none
  | e :: rest =>
    if e.1.length = 24 ∧ e.1.drop 16 = sid then
      match e.2 with
      | some sp => some (buildSummary sp month)
      | none => findInEntries sid month rest
    else findInEntries sid month rest

/-- store.go:409-443 findSpanByID: first match across services and months in
bucket order. -/
def findSpanByID (st : Store) (sid : List Nat) : Option SpanSummary :=
  st.findSome? (fun p => p.2.findSome? (fun q => findInEntries sid q.1 q.2))

/-- Key within [lo, hi] (cursor Seek(lo) then walk while key ≤ hi; on a sorted
bucket the cursor visits exactly the keys in this range, in order). -/
def keyInRange (lo hi k : List Nat) : Bool :=
  !(bytesCmp k lo == Ordering.lt) && !(bytesCmp hi k == Ordering.lt)

/-- store.go:445-477 scanWindow: for every service and every month overlapping
[f, t], the records whose key lies between the two time-bound keys and whose
trace id matches. -/
def scanWindow (st : Store) (tid : String) (f t : Int) : List SpanSummary :=
  let lo := timeBoundKey (msOfNanos f) 0
  let hi := timeBoundKey (msOfNanos t) 255
  st.flatMap (fun p => (monthsInRange f t).flatMap (fun m =>
    match lookupMonth p.2 m with
    | none => []
    | some es =>
      (es.filter (fun e => keyInRange lo hi e.1)).filterMap (fun e =>
        match e.2 with
        | none => none
        | some sp =>
          if hexEncode sp.traceId = tid then some (buildSummary sp m) else none)))

/-- store.go:395-407 GetSpanTree: anchor lookup, then a ±2-minute window scan
around the anchor's start time; empty trace id and no spans when the anchor is
not found. -/
def getSpanTree (st : Store) (sid : List Nat) : String × List SpanSummary :=
  match findSpanByID st sid with
  | none => ("", [])
  | some anchor =>
    (anchor.traceID,
      scanWindow st anchor.traceID (anchor.startNanos - 120000000000)
        (anchor.startNanos + 120000000000))

/-! ## Cleanup (store.go:537-586) -/

/-- A month bucket survives cleanup when its name does not parse as YYYY-MM or
the first instant of the following month is not strictly before the cutoff. -/
def monthKept (cutoff : Int) (m : String) : Bool :=
  match parseMonth m with
  | none => true
  | some (y, mo) => if endOfMonthNanos y mo < cutoff then false else true

/-- store.go:539-586 Cleanup: cutoff is now minus the retention horizon
(AddDate(0,0,-retentionDays) in UTC, i.e. retentionDays * 86400s); every
marked month bucket is deleted, and a service bucket that had a deletion and
is left without children is deleted too. -/
def cleanup (st : Store) (now : Int) (retentionDays : Int) : Store :=
  let cutoff := now - retentionDays * 86400000000000
  st.filterMap (fun p =>
    let kept := p.2.filter (fun q => monthKept cutoff q.1)
    if kept.isEmpty && !p.2.isEmpty then none else some (p.1, kept))

/-- The month partition named `m` exists for service `svc`. -/
def hasMonth (st : Store) (svc m : String) : Prop :=
  ∃ ml, (svc, ml) ∈ st ∧ ∃ es, (m, es) ∈ ml

/-! ## Store well-formedness (the invariants bbolt and the write path maintain) -/

/-- Shape of one stored entry: a 24-byte key of bytes, whose first six bytes
are the big-endian start-time millisecond of the decoded span, stored in the
month bucket named after that start time (vacuous for corrupt records). -/
def valWF (month : String) (k : List Nat) : Option Span → Prop
  | none => True
  | some sp =>
    msOfNanos (sp.startTimeUnixNano : Int) < 281474976710656 ∧
      k.take 6 = msBytes (msOfNanos (sp.startTimeUnixNano : Int)) ∧
      month = monthOfNanos (sp.startTimeUnixNano : Int)

instance (month : String) (k : List Nat) :
    (v : Option Span) → Decidable (valWF month k v)
  | none => isTrue trivial
  | some _ => inferInstanceAs (Decidable (_ ∧ _ ∧ _))

def entryWF (month : String) (e : List Nat × Option Span) : Prop :=
  e.1.length = 24 ∧ (∀ b ∈ e.1, b < 256) ∧ valWF month e.1 e.2

instance (month : String) (e : List Nat × Option Span) : Decidable (entryWF month e) :=
  inferInstanceAs (Decidable (_ ∧ _ ∧ _))

/-- Service buckets sorted strictly ascending by name. -/
def SvcSorted (st : Store) : Prop := st.Pairwise (fun p q => strLt p.1 q.1)

/-- Month buckets sorted strictly ascending by name inside every service. -/
def MonthsSorted (st : Store) : Prop :=
  ∀ p ∈ st, p.2.Pairwise (fun a b => strLt a.1 b.1)

/-- Entries sorted strictly ascending by key inside every month bucket. -/
def EntriesSorted (st : Store) : Prop :=
  ∀ p ∈ st, ∀ q ∈ p.2, q.2.Pairwise (fun d e => bytesLt d.1 e.1)

/-- Every stored entry is well-shaped. -/
def KeysWF (st : Store) : Prop :=
  ∀ p ∈ st, ∀ q ∈ p.2, ∀ e ∈ q.2, entryWF q.1 e

/-- Keys in a month bucket with a smaller name are bytewise smaller than keys
in a month bucket with a larger name (month names are the YYYY-MM of the key's
timestamp, and YYYY-MM string order is chronological). -/
def CrossMonth (st : Store) : Prop :=
  ∀ p ∈ st, ∀ q1 ∈ p.2, ∀ q2 ∈ p.2, strLt q1.1 q2.1 →
    ∀ e1 ∈ q1.2, ∀ e2 ∈ q2.2, bytesLt e1.1 e2.1

def Sorted3 (st : Store) : Prop := SvcSorted st ∧ MonthsSorted st ∧ EntriesSorted st

def WF (st : Store) : Prop := Sorted3 st ∧ KeysWF st ∧ CrossMonth st

instance (st : Store) : Decidable (SvcSorted st) := by
  unfold SvcSorted
  infer_instance

instance (st : Store) : Decidable (MonthsSorted st) := by
  unfold MonthsSorted
  infer_instance

instance (st : Store) : Decidable (EntriesSorted st) := by
  unfold EntriesSorted
  infer_instance

instance (st : Store) : Decidable (KeysWF st) := by
  unfold KeysWF
  infer_instance

instance (st : Store) : Decidable (CrossMonth st) := by
  unfold CrossMonth
  infer_instance

instance (st : Store) : Decidable (Sorted3 st) := by
  unfold Sorted3
  infer_instance

instance (st : Store) : Decidable (WF st) := by
  unfold WF
  infer_instance

/-! ## Compression (store.go compress/decompress wrap compress/zlib, which is
the Go standard library, not repository code.  Modelled from the spec: a
DEFLATE-compatible codec at the record level — a zlib stream holding stored
(uncompressed) DEFLATE blocks with an Adler-32 trailer. -/

/-- Adler-32 checksum. -/
def adler32 (data : List Nat) : Nat :=
  let s := data.foldl (fun (ab : Nat × Nat) b =>
    let a := (ab.1 + b) % 65521
    (a, (ab.2 + a) % 65521)) (1, 0)
  s.2 * 65536 + s.1

/-- Big-endian 32-bit encoding. -/
def u32be (n : Nat) : List Nat :=
  [n / 16777216 % 256, n / 65536 % 256, n / 256 % 256, n % 256]

/-- Stored-block DEFLATE stream: block header byte (BFINAL flag, BTYPE 00,
bit-padded to a byte), LEN little-endian, NLEN = 0xffff - LEN, then the raw
bytes; at most 65535 bytes per block. -/
def deflateStored (data : List Nat) : List Nat :=
  if data.length ≤ 65535 then
    1 :: data.length % 256 :: data.length / 256 ::
      (65535 - data.length) % 256 :: (65535 - data.length) / 256 :: data
  else
    0 :: 255 :: 255 :: 0 :: 0 ::
      (data.take 65535 ++ deflateStored (data.drop 65535))
termination_by data.length
decreasing_by simp; omega

/-- Inflate a stored-block DEFLATE stream; returns the payload and the
remaining (trailer) bytes. -/
def inflateStored : List Nat → Option (List Nat × List Nat)
  | bf :: l1 :: l2 :: n1 :: n2 :: rest =>
    let len := l1 + 256 * l2
    if n1 + 256 * n2 = 65535 - len then
      if len ≤ rest.length then
        if bf = 1 then some (rest.take len, rest.drop len)
        else if bf = 0 then
          match inflateStored (rest.drop len) with
          | some (tail, trailer) => some (rest.take len ++ tail, trailer)
          | none => none
        else none
      else none
    else none
  | _ => none
termination_by l => l.length
decreasing_by simp; omega

/-- store.go:607-617 compress: zlib header 0x78 0x9c, deflate body, Adler-32
trailer. -/
def compress (data : List Nat) : List Nat :=
  [120, 156] ++ deflateStored data ++ u32be (adler32 data)

/-- store.go:528-535 decompress: validate the zlib header (deflate method,
header checksum, no preset dictionary), inflate, verify the Adler-32
trailer. -/
def decompress (data : List Nat) : Option (List Nat) :=
  match data with
  | cmf :: flg :: rest =>
    if cmf % 16 = 8 ∧ (cmf * 256 + flg) % 31 = 0 ∧ flg / 32 % 2 = 0 then
      match inflateStored rest with
      | some (payload, trailer) =>
        if trailer = u32be (adler32 payload) then some payload else none
      | none => none
    else none
  | _ => none


/-! ## Sample write inputs (used to exercise the write path on a concrete
store) -/

def wSpan : Span :=
  ⟨[171, 205], [9, 9, 9, 9, 9, 9, 9, 9], [], "op",
    1700000000000000000, 1700000000000000001, 0⟩

def wRS : ResourceSpans :=
  ⟨some ⟨[⟨"service.name", some (AnyValue.strVal "websvc")⟩]⟩, [⟨[wSpan]⟩]⟩

def wEnt : List Nat := [1, 2, 3, 4, 5, 6, 7, 8, 9, 10]

def wEs : List (String × List Nat × Span) :=
  (writeEntries 0 (allSpans wRS) [wEnt]).getD []

def wSt : Store := (writeResourceSpans [] wRS 0 [wEnt]).getD []


/-- A two-span batch: an anchor and a same-trace peer exactly 2 minutes
later. -/
def wSpan2 : Span :=
  ⟨[171, 205], [1, 1, 1, 1, 1, 1, 1, 1], [], "anchor",
    1700000000000000000, 1700000000000000001, 0⟩

def wSpan3 : Span :=
  ⟨[171, 205], [2, 2, 2, 2, 2, 2, 2, 2], [], "peer",
    1700000120000000000, 1700000120000000001, 0⟩

def wRS2 : ResourceSpans :=
  ⟨some ⟨[⟨"service.name", some (AnyValue.strVal "websvc")⟩]⟩,
    [⟨[wSpan2, wSpan3]⟩]⟩

def wSt2 : Store :=
  (writeResourceSpans [] wRS2 0
    [[1, 2, 3, 4, 5, 6, 7, 8, 9, 10], [11, 12, 13, 14, 15, 16, 17, 18, 19, 20]]).getD []

def wSid : List Nat := [1, 1, 1, 1, 1, 1, 1, 1]

def wAnchor : SpanSummary := (findSpanByID wSt2 wSid).getD (buildSummary wSpan2 "")

/-- An anchor starting only 60 seconds after the Unix epoch — an ordinary
uint64/int64 timestamp the program accepts end to end — with a same-trace
peer exactly 2 minutes later. -/
def cexSpanA : Span :=
  ⟨[171, 205], [3, 3, 3, 3, 3, 3, 3, 3], [], "anchor",
    60000000000, 60000000001, 0⟩

def cexSpanP : Span :=
  ⟨[171, 205], [4, 4, 4, 4, 4, 4, 4, 4], [], "peer",
    180000000000, 180000000001, 0⟩

def cexRS : ResourceSpans :=
  ⟨some ⟨[⟨"service.name", some (AnyValue.strVal "websvc")⟩]⟩,
    [⟨[cexSpanA, cexSpanP]⟩]⟩

def cexSt : Store :=
  (writeResourceSpans [] cexRS 0
    [[21, 22, 23, 24, 25, 26, 27, 28, 29, 30],
     [31, 32, 33, 34, 35, 36, 37, 38, 39, 40]]).getD []

def cexSid : List Nat := [3, 3, 3, 3, 3, 3, 3, 3]

def cexAnchor : SpanSummary := (findSpanByID cexSt cexSid).getD (buildSummary cexSpanA "")

/-! # Theorems -/

/-! ## Bytewise comparison -/

theorem bytesCmp_eq_iff : ∀ a b : List Nat, bytesCmp a b = .eq ↔ a = b
  | [], [] => by simp [bytesCmp]
  | [], _ :: _ => by simp [bytesCmp]
  | _ :: _, [] => by simp [bytesCmp]
  | a :: as, b :: bs => by
    simp only [bytesCmp]
    split_ifs with h1 h2
    · simp only [List.cons.injEq]
      constructor
      · intro h; cases h
      · rintro ⟨rfl, -⟩; omega
    · simp only [List.cons.injEq]
      constructor
      · intro h; cases h
      · rintro ⟨rfl, -⟩; omega
    · have hab : a = b := by omega
      simp [hab, bytesCmp_eq_iff as bs]

theorem bytesCmp_refl (a : List Nat) : bytesCmp a a = .eq :=
  (bytesCmp_eq_iff a a).mpr rfl

theorem bytesCmp_gt_iff : ∀ a b : List Nat, bytesCmp a b = .gt ↔ bytesCmp b a = .lt
  | [], [] => by simp [bytesCmp]
  | [], _ :: _ => by simp [bytesCmp]
  | _ :: _, [] => by simp [bytesCmp]
  | a :: as, b :: bs => by
    simp only [bytesCmp]
    split_ifs with h1 h2 <;> try simp_all <;> omega
    exact bytesCmp_gt_iff as bs

theorem bytesLt_irrefl (a : List Nat) : ¬ bytesLt a a := by
  simp [bytesLt, bytesCmp_refl]

theorem bytesCmp_append : ∀ p q x y : List Nat, p.length = q.length →
    bytesCmp (p ++ x) (q ++ y) =
      (match bytesCmp p q with
        | .eq => bytesCmp x y
        | o => o)
  | [], [], x, y, _ => by simp [bytesCmp]
  | [], _ :: _, _, _, h => by simp at h
  | _ :: _, [], _, _, h => by simp at h
  | a :: as, b :: bs, x, y, h => by
    simp only [List.cons_append, bytesCmp]
    split_ifs with h1 h2
    · rfl
    · rfl
    · exact bytesCmp_append as bs x y (by simpa using h)

theorem bytesCmp_ne_lt_replicate_zero :
    ∀ (r : List Nat) (n : Nat), r.length = n →
      bytesCmp r (List.replicate n 0) ≠ .lt
  | [], 0, _ => by simp [bytesCmp]
  | [], _ + 1, h => by simp at h
  | _ :: _, 0, h => by simp at h
  | a :: as, n + 1, h => by
    simp only [List.replicate_succ, bytesCmp]
    split_ifs with h1 h2
    · omega
    · simp
    · exact bytesCmp_ne_lt_replicate_zero as n (by simpa using h)

theorem bytesCmp_ne_gt_replicate_ff :
    ∀ (r : List Nat) (n : Nat), r.length = n → (∀ b ∈ r, b < 256) →
      bytesCmp r (List.replicate n 255) ≠ .gt
  | [], 0, _, _ => by simp [bytesCmp]
  | [], _ + 1, h, _ => by simp at h
  | _ :: _, 0, h, _ => by simp at h
  | a :: as, n + 1, h, hb => by
    simp only [List.replicate_succ, bytesCmp]
    have ha : a < 256 := hb a (by simp)
    split_ifs with h1 h2
    · simp
    · omega
    · exact bytesCmp_ne_gt_replicate_ff as n (by simpa using h)
        (fun b hbmem => hb b (by simp [hbmem]))

theorem msBytes_unfold (m1 m2 : Nat) :
    bytesCmp (msBytes m1) (msBytes m2) =
      (if m1 / 1099511627776 % 256 < m2 / 1099511627776 % 256 then .lt
       else if m2 / 1099511627776 % 256 < m1 / 1099511627776 % 256 then .gt
       else if m1 / 4294967296 % 256 < m2 / 4294967296 % 256 then .lt
       else if m2 / 4294967296 % 256 < m1 / 4294967296 % 256 then .gt
       else if m1 / 16777216 % 256 < m2 / 16777216 % 256 then .lt
       else if m2 / 16777216 % 256 < m1 / 16777216 % 256 then .gt
       else if m1 / 65536 % 256 < m2 / 65536 % 256 then .lt
       else if m2 / 65536 % 256 < m1 / 65536 % 256 then .gt
       else if m1 / 256 % 256 < m2 / 256 % 256 then .lt
       else if m2 / 256 % 256 < m1 / 256 % 256 then .gt
       else if m1 % 256 < m2 % 256 then .lt
       else if m2 % 256 < m1 % 256 then .gt
       else .eq) := rfl

theorem msBytes_lt_of_lt (m1 m2 : Nat) (hlt : m1 < m2) (h2 : m2 < 281474976710656) :
    bytesCmp (msBytes m1) (msBytes m2) = .lt := by
  have h1 : m1 < 281474976710656 := by omega
  rw [msBytes_unfold]
  rcases Nat.lt_trichotomy (m1 / 1099511627776 % 256) (m2 / 1099511627776 % 256)
    with g1 | g1 | g1
  · rw [if_pos g1]
  · rw [if_neg (by omega), if_neg (by omega)]
    rcases Nat.lt_trichotomy (m1 / 4294967296 % 256) (m2 / 4294967296 % 256)
      with g2 | g2 | g2
    · rw [if_pos g2]
    · rw [if_neg (by omega), if_neg (by omega)]
      rcases Nat.lt_trichotomy (m1 / 16777216 % 256) (m2 / 16777216 % 256)
        with g3 | g3 | g3
      · rw [if_pos g3]
      · rw [if_neg (by omega), if_neg (by omega)]
        rcases Nat.lt_trichotomy (m1 / 65536 % 256) (m2 / 65536 % 256)
          with g4 | g4 | g4
        · rw [if_pos g4]
        · rw [if_neg (by omega), if_neg (by omega)]
          rcases Nat.lt_trichotomy (m1 / 256 % 256) (m2 / 256 % 256)
            with g5 | g5 | g5
          · rw [if_pos g5]
          · rw [if_neg (by omega), if_neg (by omega)]
            rcases Nat.lt_trichotomy (m1 % 256) (m2 % 256) with g6 | g6 | g6
            · rw [if_pos g6]
            · exfalso; omega
            · exfalso; omega
          · exfalso; omega
        · exfalso; omega
      · exfalso; omega
    · exfalso; omega
  · exfalso; omega

theorem msBytes_lt_iff (m1 m2 : Nat) (h1 : m1 < 281474976710656)
    (h2 : m2 < 281474976710656) :
    bytesCmp (msBytes m1) (msBytes m2) = .lt ↔ m1 < m2 := by
  constructor
  · intro h
    rcases Nat.lt_trichotomy m1 m2 with g | g | g
    · exact g
    · subst g; rw [bytesCmp_refl (msBytes m1)] at h; cases h
    · have := (bytesCmp_gt_iff (msBytes m1) (msBytes m2)).mpr (msBytes_lt_of_lt m2 m1 g h1)
      rw [h] at this; cases this
  · intro h; exact msBytes_lt_of_lt m1 m2 h h2

theorem msBytes_eq_iff (m1 m2 : Nat) (h1 : m1 < 281474976710656)
    (h2 : m2 < 281474976710656) :
    bytesCmp (msBytes m1) (msBytes m2) = .eq ↔ m1 = m2 := by
  constructor
  · intro h
    rcases Nat.lt_trichotomy m1 m2 with g | g | g
    · rw [msBytes_lt_of_lt m1 m2 g h2] at h; cases h
    · exact g
    · have := (bytesCmp_gt_iff (msBytes m1) (msBytes m2)).mpr (msBytes_lt_of_lt m2 m1 g h1)
      rw [h] at this; cases this
  · rintro rfl; exact bytesCmp_refl _

theorem msBytes_length (ms : Nat) : (msBytes ms).length = 6 := rfl

theorem msBytes_bytes_lt (ms : Nat) : ∀ b ∈ msBytes ms, b < 256 := by
  intro b hb
  simp only [msBytes, List.mem_cons, List.not_mem_nil, or_false] at hb
  rcases hb with rfl | rfl | rfl | rfl | rfl | rfl <;> omega

/-! ## String comparison -/

theorem charsCmp_eq_iff : ∀ a b : List Char, charsCmp a b = .eq ↔ a = b
  | [], [] => by simp [charsCmp]
  | [], _ :: _ => by simp [charsCmp]
  | _ :: _, [] => by simp [charsCmp]
  | a :: as, b :: bs => by
    simp only [charsCmp]
    split_ifs with h1 h2
    · simp only [List.cons.injEq]
      constructor
      · intro h; cases h
      · rintro ⟨rfl, -⟩; exact absurd h1 (lt_irrefl a)
    · simp only [List.cons.injEq]
      constructor
      · intro h; cases h
      · rintro ⟨rfl, -⟩; exact absurd h2 (lt_irrefl a)
    · have hab : a = b := le_antisymm (not_lt.mp h2) (not_lt.mp h1)
      simp [hab, charsCmp_eq_iff as bs]

theorem charsCmp_gt_iff : ∀ a b : List Char, charsCmp a b = .gt ↔ charsCmp b a = .lt
  | [], [] => by simp [charsCmp]
  | [], _ :: _ => by simp [charsCmp]
  | _ :: _, [] => by simp [charsCmp]
  | a :: as, b :: bs => by
    simp only [charsCmp]
    split_ifs with h1 h2 <;> try simp_all [lt_asymm]
    · exact charsCmp_gt_iff as bs

theorem strLt_irrefl (a : String) : ¬ strLt a a := by
  simp [strLt, (charsCmp_eq_iff a.data a.data).mpr rfl]

theorem string_data_inj {a b : String} (h : a.data = b.data) : a = b := by
  cases a; cases b; exact congrArg String.mk h

theorem strLt_trichotomy (a b : String) : strLt a b ∨ a = b ∨ strLt b a := by
  rcases hc : charsCmp a.data b.data with h | h | h
  · exact Or.inl hc
  · exact Or.inr (Or.inl (string_data_inj ((charsCmp_eq_iff _ _).mp hc)))
  · exact Or.inr (Or.inr ((charsCmp_gt_iff _ _).mp hc))

theorem strLt_asymm {a b : String} (h : strLt a b) : ¬ strLt b a := by
  intro h2
  have := (charsCmp_gt_iff b.data a.data).mpr h
  simp only [strLt] at h2
  rw [h2] at this
  cases this

/-! ## Calendar correctness -/

theorem yoe_spec (doe : Int) (h0 : 0 ≤ doe) (h1 : doe ≤ 146096) :
    0 ≤ yoeOfDoe doe ∧ yoeOfDoe doe ≤ 399 ∧
      365 * yoeOfDoe doe + yoeOfDoe doe / 4 - yoeOfDoe doe / 100 ≤ doe ∧
      (yoeOfDoe doe ≤ 398 →
        doe < 365 * (yoeOfDoe doe + 1) + (yoeOfDoe doe + 1) / 4 - (yoeOfDoe doe + 1) / 100) := by
  simp only [yoeOfDoe]
  have he0 : 0 ≤ doe / 1460 := by omega
  have he1 : doe / 1460 ≤ 100 := by omega
  set e := doe / 1460 with hedef
  interval_cases e <;>
    first
    | omega
    | (set f := doe / 36524 with hfdef
       have hf0 : (0:Int) ≤ f := by omega
       have hf1 : f ≤ 4 := by omega
       interval_cases f <;> omega)

theorem ym_facts (era doe : Int) (h0 : 0 ≤ doe) (h1 : doe ≤ 146096) :
    1 ≤ (ymOfDoe era doe).2 ∧ (ymOfDoe era doe).2 ≤ 12 ∧
      12 * (ymOfDoe era doe).1 + (ymOfDoe era doe).2 - 1 = 4800 * era + gIdx doe := by
  have h := yoe_spec doe h0 h1
  simp only [ymOfDoe, gIdx, doyOfDoe] at *
  split_ifs <;> omega

theorem yoe_step (doe : Int) (h0 : 0 ≤ doe) (h1 : doe ≤ 146095) :
    yoeOfDoe doe = yoeOfDoe (doe + 1) ∨ yoeOfDoe doe + 1 = yoeOfDoe (doe + 1) := by
  have h := yoe_spec doe h0 (by omega)
  have h' := yoe_spec (doe + 1) (by omega) (by omega)
  omega

theorem gIdx_step (doe : Int) (h0 : 0 ≤ doe) (h1 : doe ≤ 146095) :
    gIdx doe ≤ gIdx (doe + 1) := by
  have h := yoe_spec doe h0 (by omega)
  have h' := yoe_spec (doe + 1) (by omega) (by omega)
  rcases yoe_step doe h0 h1 with heq | heq <;>
    · simp only [gIdx, doyOfDoe] at *
      omega

theorem gIdx_wrap : gIdx 146096 ≤ 4800 + gIdx 0 := by decide

theorem monthIdx_step (z : Int) : monthIdx z ≤ monthIdx (z + 1) := by
  have ha : monthIdx z =
      12 * (ymOfDoe ((z + 719468) / 146097)
              (z + 719468 - (z + 719468) / 146097 * 146097)).1 +
        (ymOfDoe ((z + 719468) / 146097)
              (z + 719468 - (z + 719468) / 146097 * 146097)).2 - 1 := rfl
  have hb : monthIdx (z + 1) =
      12 * (ymOfDoe ((z + 1 + 719468) / 146097)
              (z + 1 + 719468 - (z + 1 + 719468) / 146097 * 146097)).1 +
        (ymOfDoe ((z + 1 + 719468) / 146097)
              (z + 1 + 719468 - (z + 1 + 719468) / 146097 * 146097)).2 - 1 := rfl
  have hd0 : 0 ≤ z + 719468 - (z + 719468) / 146097 * 146097 := by omega
  have hd1 : z + 719468 - (z + 719468) / 146097 * 146097 ≤ 146096 := by omega
  have hd0' : 0 ≤ z + 1 + 719468 - (z + 1 + 719468) / 146097 * 146097 := by omega
  have hd1' : z + 1 + 719468 - (z + 1 + 719468) / 146097 * 146097 ≤ 146096 := by omega
  have hf := ym_facts ((z + 719468) / 146097) _ hd0 hd1
  have hf' := ym_facts ((z + 1 + 719468) / 146097) _ hd0' hd1'
  rcases (by omega :
      ((z + 1 + 719468) / 146097 = (z + 719468) / 146097 ∧
        z + 1 + 719468 - (z + 1 + 719468) / 146097 * 146097 =
          (z + 719468 - (z + 719468) / 146097 * 146097) + 1) ∨
      ((z + 1 + 719468) / 146097 = (z + 719468) / 146097 + 1 ∧
        z + 1 + 719468 - (z + 1 + 719468) / 146097 * 146097 = 0 ∧
        z + 719468 - (z + 719468) / 146097 * 146097 = 146096)) with
    ⟨hea, hdd⟩ | ⟨hea, hdd, hde⟩
  · have hstep := gIdx_step (z + 719468 - (z + 719468) / 146097 * 146097) hd0 (by omega)
    rw [ha, hb]
    rw [hea] at hdd hf' ⊢
    rw [hdd] at hf' ⊢
    omega
  · have hwrap := gIdx_wrap
    rw [ha, hb]
    rw [hea] at hdd hf' ⊢
    rw [hdd] at hf' ⊢
    rw [hde] at hf ⊢
    omega

theorem monthIdx_mono {z1 z2 : Int} (h : z1 ≤ z2) : monthIdx z1 ≤ monthIdx z2 := by
  refine Int.le_induction (m := z1) (P := fun n => monthIdx z1 ≤ monthIdx n) le_rfl
    (fun n _ ih => le_trans ih (monthIdx_step n)) z2 h

theorem civilYM_facts (z : Int) :
    1 ≤ (civilYM z).2 ∧ (civilYM z).2 ≤ 12 ∧
      monthIdx z = 12 * (civilYM z).1 + (civilYM z).2 - 1 := by
  have ha : civilYM z = ymOfDoe ((z + 719468) / 146097)
      (z + 719468 - (z + 719468) / 146097 * 146097) := rfl
  have hd0 : 0 ≤ z + 719468 - (z + 719468) / 146097 * 146097 := by omega
  have hd1 : z + 719468 - (z + 719468) / 146097 * 146097 ≤ 146096 := by omega
  have hf := ym_facts ((z + 719468) / 146097) _ hd0 hd1
  rw [monthIdx, ha]
  exact ⟨hf.1, hf.2.1, rfl⟩

theorem monthStr_idx (z : Int) :
    monthStr z = ymStr (monthIdx z / 12) (monthIdx z % 12 + 1) := by
  obtain ⟨h1, h2, h3⟩ := civilYM_facts z
  have hy : monthIdx z / 12 = (civilYM z).1 := by omega
  have hm : monthIdx z % 12 + 1 = (civilYM z).2 := by omega
  rw [monthStr, hy, hm]

theorem daysOfNanos_mono {a b : Int} (h : a ≤ b) : daysOfNanos a ≤ daysOfNanos b :=
  Int.ediv_le_ediv (by norm_num) h

theorem mem_intRange {lo hi i : Int} (h1 : lo ≤ i) (h2 : i ≤ hi) : i ∈ intRange lo hi := by
  have hk : lo + ((i - lo).toNat : Int) = i := by
    rw [Int.toNat_of_nonneg (by omega)]; omega
  rw [intRange]
  refine List.mem_map.mpr ⟨(i - lo).toNat, List.mem_range.mpr ?_, hk⟩
  rw [Int.toNat_lt_toNat (by omega)]
  omega

theorem mem_monthsInRange_left (f t : Int) (h : f ≤ t) :
    monthStr (daysOfNanos f) ∈ monthsInRange f t := by
  have hab : monthIdx (daysOfNanos f) ≤ monthIdx (daysOfNanos t) :=
    monthIdx_mono (daysOfNanos_mono h)
  exact List.mem_map.mpr ⟨monthIdx (daysOfNanos f),
    mem_intRange le_rfl hab, (monthStr_idx _).symm⟩

theorem mem_monthsInRange_right (f t : Int) (h : f ≤ t) :
    monthStr (daysOfNanos t) ∈ monthsInRange f t := by
  have hab : monthIdx (daysOfNanos f) ≤ monthIdx (daysOfNanos t) :=
    monthIdx_mono (daysOfNanos_mono h)
  exact List.mem_map.mpr ⟨monthIdx (daysOfNanos t),
    mem_intRange hab le_rfl, (monthStr_idx _).symm⟩

/-! ## Claim C7 (time-bound key ordering) -/

/-- Claim C7, counterexample: taking t1 with millisecond timestamp 0 and t2
with millisecond timestamp 2^48 (a representable Go time, around the year
10889), we have millisecond(t1) < millisecond(t2), yet the upper-bound key of
t1 is not bytewise less than the lower-bound key of t2 — timeBoundKey keeps
only the low 48 bits of the timestamp, so the claim fails without a 48-bit
bound. -/
theorem spec_c7_cex :
    0 < 281474976710656 ∧
      ¬ bytesLt (timeBoundKey 0 255) (timeBoundKey 281474976710656 0) := by
  decide

/-- Claim C7 (amended): for every timestamp the 24-byte lower-bound key
(fill 0x00) is bytewise strictly less than the upper-bound key (fill 0xFF)
for the same timestamp; and whenever ms1 < ms2 < 2^48 (the ULID timestamp
range, within which every stored key lives) the upper-bound key of ms1 is
strictly less than the lower-bound key of ms2. -/
theorem spec_c7 :
    (∀ ms : Nat, bytesLt (timeBoundKey ms 0) (timeBoundKey ms 255)) ∧
      (∀ ms1 ms2 : Nat, ms1 < ms2 → ms2 < 281474976710656 →
        bytesLt (timeBoundKey ms1 255) (timeBoundKey ms2 0)) := by
  constructor
  · intro ms
    have h := bytesCmp_append (msBytes ms) (msBytes ms)
      (List.replicate 18 0) (List.replicate 18 255) rfl
    rw [bytesCmp_refl] at h
    unfold bytesLt timeBoundKey
    rw [h]
    decide
  · intro ms1 ms2 hlt hb
    have h := bytesCmp_append (msBytes ms1) (msBytes ms2)
      (List.replicate 18 255) (List.replicate 18 0) rfl
    rw [msBytes_lt_of_lt ms1 ms2 hlt hb] at h
    unfold bytesLt timeBoundKey
    rw [h]

/-- Claim C7 witness: both parts of the amended theorem at concrete
timestamps. -/
theorem spec_c7_witness :
    bytesLt (timeBoundKey 12345 0) (timeBoundKey 12345 255) ∧
      bytesLt (timeBoundKey 12345 255) (timeBoundKey 99999 0) :=
  ⟨spec_c7.1 12345, spec_c7.2 12345 99999 (by decide) (by decide)⟩

/-! ## Claim C4 (key order is chronological order with random tie-break) -/

/-- Claim C4: for two keys built by makeKey in the same month partition,
bytewise order of the keys is millisecond order of the start times, with
millisecond ties broken by the random suffix (the 10 ULID entropy bytes
followed by the padded span id): a.key < b.key iff ms(a) < ms(b), or
ms(a) = ms(b) and a's random suffix is bytewise below b's. -/
theorem spec_c4 (msa msb : Nat) (ea eb sa sb ka kb : List Nat)
    (ha : makeKey msa ea sa = some ka) (hb : makeKey msb eb sb = some kb) :
    bytesLt ka kb ↔
      (msa < msb ∨ (msa = msb ∧ bytesLt (ea ++ pad8 sa) (eb ++ pad8 sb))) := by
  unfold makeKey at ha hb
  by_cases h1 : msa < 281474976710656
  case neg => rw [if_neg h1] at ha; cases ha
  rw [if_pos h1] at ha
  by_cases h2 : msb < 281474976710656
  case neg => rw [if_neg h2] at hb; cases hb
  rw [if_pos h2] at hb
  injection ha with ha
  injection hb with hb
  subst ha
  subst hb
  unfold bytesLt
  rw [List.append_assoc (msBytes msa) ea (pad8 sa),
    List.append_assoc (msBytes msb) eb (pad8 sb),
    bytesCmp_append (msBytes msa) (msBytes msb) (ea ++ pad8 sa) (eb ++ pad8 sb) rfl]
  rcases Nat.lt_trichotomy msa msb with g | g | g
  · rw [msBytes_lt_of_lt msa msb g h2]
    constructor
    · intro _
      exact Or.inl g
    · intro _
      rfl
  · subst g
    rw [bytesCmp_refl]
    constructor
    · intro h
      exact Or.inr ⟨rfl, h⟩
    · rintro (h | ⟨-, h⟩)
      · exact absurd h (lt_irrefl _)
      · exact h
  · rw [(bytesCmp_gt_iff _ _).mpr (msBytes_lt_of_lt msb msa g h1)]
    constructor
    · intro h
      exact Ordering.noConfusion h
    · rintro (h | ⟨h, -⟩) <;> omega

/-- Claim C4 witness: two concrete keys one millisecond apart. -/
theorem spec_c4_witness :
    bytesLt (msBytes 5 ++ ([1, 2, 3, 4, 5, 6, 7, 8, 9, 10] ++ pad8 [7]))
      (msBytes 6 ++ ([1, 2, 3, 4, 5, 6, 7, 8, 9, 10] ++ pad8 [7])) :=
  (spec_c4 5 6 [1, 2, 3, 4, 5, 6, 7, 8, 9, 10] [1, 2, 3, 4, 5, 6, 7, 8, 9, 10]
      [7] [7] _ _ rfl rfl).mpr (Or.inl (by decide))

/-! ## Claim C8 (compression round-trip) -/

theorem inflate_deflate (x t : List Nat) :
    inflateStored (deflateStored x ++ t) = some (x, t) := by
  by_cases h : x.length ≤ 65535
  · rw [deflateStored, if_pos h]
    simp only [List.cons_append]
    rw [inflateStored]
    have e1 : x.length % 256 + 256 * (x.length / 256) = x.length := by omega
    have e2 : (65535 - x.length) % 256 + 256 * ((65535 - x.length) / 256) =
        65535 - (x.length % 256 + 256 * (x.length / 256)) := by omega
    have e3 : x.length % 256 + 256 * (x.length / 256) ≤ (x ++ t).length := by
      rw [List.length_append]
      omega
    rw [if_pos e2, if_pos e3, if_pos rfl, e1, List.take_left, List.drop_left]
  · rw [deflateStored, if_neg h]
    simp only [List.cons_append, List.append_assoc]
    rw [inflateStored]
    have hlen : (x.take 65535).length = 65535 := by
      simp
      omega
    rw [if_pos (by omega)]
    rw [if_pos (by rw [List.length_append, hlen]; omega)]
    rw [if_neg (by omega), if_pos rfl]
    have hd : ((x.take 65535 ++ (deflateStored (x.drop 65535) ++ t)).drop
        (255 + 256 * 255)) = deflateStored (x.drop 65535) ++ t := by
      have : (255 + 256 * 255) = (x.take 65535).length := by omega
      rw [this, List.drop_left]
    have htk : ((x.take 65535 ++ (deflateStored (x.drop 65535) ++ t)).take
        (255 + 256 * 255)) = x.take 65535 := by
      have : (255 + 256 * 255) = (x.take 65535).length := by omega
      rw [this, List.take_left]
    rw [hd, htk, inflate_deflate (x.drop 65535) t]
    simp
termination_by x.length
decreasing_by simp; omega

/-- Claim C8: decompress is a left inverse of compress for every byte string,
including the empty one.  The zlib codec itself is the Go standard library's;
modelled from the spec as a stored-block DEFLATE stream in a zlib wrapper with
an Adler-32 trailer. -/
theorem spec_c8 (x : List Nat) : decompress (compress x) = some x := by
  show decompress (120 :: 156 :: (deflateStored x ++ u32be (adler32 x))) = some x
  rw [decompress, if_pos (by omega), inflate_deflate]
  simp

/-! ## Claim C10 (GetSpanTree with a span id that is not 8 bytes) -/

theorem findInEntries_none (sid : List Nat) (hs : sid.length ≠ 8) (month : String) :
    ∀ es : EntryList, findInEntries sid month es = none
  | [] => rfl
  | e :: rest => by
    rw [findInEntries]
    have hcond : ¬(e.1.length = 24 ∧ e.1.drop 16 = sid) := by
      rintro ⟨h24, hdrop⟩
      apply hs
      rw [← hdrop]
      simp [h24]
    rw [if_neg hcond]
    exact findInEntries_none sid hs month rest

/-- Claim C10: a spanID argument whose length is not exactly 8 bytes can never
match the 8-byte suffix of a 24-byte key (the anchor scan compares
`len(k) == 24 && bytes.Equal(k[16:], spanID)`), so GetSpanTree returns the
empty trace id and no spans, without error, on any store. -/
theorem spec_c10 (st : Store) (sid : List Nat) (hs : sid.length ≠ 8) :
    getSpanTree st sid = ("", []) := by
  have hf : findSpanByID st sid = none := by
    unfold findSpanByID
    rw [List.findSome?_eq_none]
    intro p _
    rw [List.findSome?_eq_none]
    intro q _
    exact findInEntries_none sid hs q.1 q.2
  unfold getSpanTree
  rw [hf]

/-- Claim C10 witness: a 3-byte span id on a store holding one record. -/
theorem spec_c10_witness :
    getSpanTree [("websvc", [("2024-01",
      [([0, 0, 0, 0, 0, 0, 0, 0, 0, 0, 0, 0, 0, 0, 0, 0, 9, 9, 9, 9, 9, 9, 9, 9],
        none)])])] [1, 2, 3] = ("", []) :=
  spec_c10 _ _ (by decide)

/-! ## Claim C9 (GetTraceByID matches by string equality only) -/

/-- Claim C9: GetTraceByID never decodes or validates its argument; matching is
string equality against the lowercase-hex encoding of each decoded record's
trace id, so any argument that is not such an encoding (uppercase hex,
malformed hex, anything else) yields an empty result and no error. -/
theorem spec_c9 (st : Store) (q : String)
    (h : ∀ p ∈ st, ∀ mq ∈ p.2, ∀ e ∈ mq.2, ∀ sp, e.2 = some sp →
      hexEncode sp.traceId ≠ q) :
    getTraceByID st q = [] := by
  apply List.eq_nil_iff_forall_not_mem.mpr
  intro s hmem
  unfold getTraceByID at hmem
  obtain ⟨p, hp, hmem⟩ := List.mem_flatMap.mp hmem
  obtain ⟨mq, hmq, hmem⟩ := List.mem_flatMap.mp hmem
  obtain ⟨e, he, hsome⟩ := List.mem_filterMap.mp hmem
  rcases e with ⟨k, v⟩
  cases v with
  | none => exact Option.noConfusion hsome
  | some sp =>
    by_cases hq : hexEncode sp.traceId = q
    · exact h p hp mq hmq (k, some sp) he sp rfl hq
    · have hsome' : (if hexEncode sp.traceId = q then some (buildSummary sp mq.1)
          else none) = some s := hsome
      rw [if_neg hq] at hsome'
      exact Option.noConfusion hsome' 

/-- Claim C9 witness: an uppercase-hex query on a store holding one record
whose trace id encodes to lowercase hex. -/
theorem spec_c9_witness :
    getTraceByID [("websvc", [("2024-01",
      [([0, 0, 0, 0, 0, 0, 0, 0, 0, 0, 0, 0, 0, 0, 0, 0, 9, 9, 9, 9, 9, 9, 9, 9],
        some ⟨[171, 205], [9, 9, 9, 9, 9, 9, 9, 9], [], "op", 5, 6, 0⟩)])])]
      "ABCD" = [] :=
  spec_c9 _ _ (by decide)

/-! ## Claim C6 (service partition naming) -/

/-- Claim C6 counterexample: a resource whose `service.name` attribute carries
an integer value (not a string) yields the empty string as the service
partition name — neither the attribute's value nor the literal `unknown` —
because proto GetStringValue returns "" for non-string values. -/
theorem spec_c6_cex :
    serviceName ⟨some ⟨[⟨"service.name", some (AnyValue.intVal 7)⟩]⟩, []⟩ = "" ∧
      ("" : String) ≠ "unknown" := by
  constructor
  · rfl
  · decide

/-- Claim C6 (amended): the derived service name is `unknown` when the
resource is absent or carries no `service.name` attribute; when the first
`service.name` attribute is present the name is GetStringValue of its value —
the attribute's payload for a string value, and the empty string for an
absent or non-string value. -/
theorem spec_c6 :
    (∀ rs : ResourceSpans, rs.resource = none → serviceName rs = "unknown") ∧
      (∀ (rs : ResourceSpans) (r : Resource), rs.resource = some r →
        r.attributes.find? (fun a => a.key == "service.name") = none →
        serviceName rs = "unknown") ∧
      (∀ (rs : ResourceSpans) (r : Resource) (a : KeyValue), rs.resource = some r →
        r.attributes.find? (fun a => a.key == "service.name") = some a →
        serviceName rs = getStringValue a.value) ∧
      (∀ s : String, getStringValue (some (AnyValue.strVal s)) = s) ∧
      (∀ v : Option AnyValue, (∀ s, v ≠ some (AnyValue.strVal s)) →
        getStringValue v = "") := by
  refine ⟨?_, ?_, ?_, ?_, ?_⟩
  · intro rs h
    unfold serviceName
    rw [h]
  · intro rs r h hf
    have hs : serviceName rs =
        (match r.attributes.find? (fun a => a.key == "service.name") with
          | some attr => getStringValue attr.value
          | none => "unknown") := by
      unfold serviceName
      rw [h]
    rw [hs, hf]
  · intro rs r a h hf
    have hs : serviceName rs =
        (match r.attributes.find? (fun a => a.key == "service.name") with
          | some attr => getStringValue attr.value
          | none => "unknown") := by
      unfold serviceName
      rw [h]
    rw [hs, hf]
  · intro s
    rfl
  · intro v hv
    match v with
    | none => rfl
    | some (.strVal s) => exact absurd rfl (hv s)
    | some (.intVal n) => rfl
    | some (.boolVal b) => rfl
    | some .otherVal => rfl

/-- Claim C6 witness: absent resource gives `unknown`; a string-valued
`service.name` attribute gives its payload. -/
theorem spec_c6_witness :
    serviceName ⟨none, []⟩ = "unknown" ∧
      serviceName ⟨some ⟨[⟨"service.name", some (AnyValue.strVal "websvc")⟩]⟩, []⟩ =
        "websvc" :=
  ⟨spec_c6.1 ⟨none, []⟩ rfl,
    (spec_c6.2.2.1 ⟨some ⟨[⟨"service.name", some (AnyValue.strVal "websvc")⟩]⟩, []⟩
      ⟨[⟨"service.name", some (AnyValue.strVal "websvc")⟩]⟩
      ⟨"service.name", some (AnyValue.strVal "websvc")⟩ rfl rfl).trans rfl⟩

/-! ## Claim C3 (retention cleanup boundary) -/

theorem monthKept_iff (cutoff : Int) (month : String) :
    monthKept cutoff month = true ↔
      (∀ y mo : Int, parseMonth month = some (y, mo) → ¬ endOfMonthNanos y mo < cutoff) := by
  unfold monthKept
  rcases hp : parseMonth month with - | ⟨y, mo⟩
  · simp
  · simp only
    split_ifs with hlt
    · constructor
      · intro hF
        exact hF.elim
      · intro hall
        exact absurd hlt (hall y mo rfl)
    · constructor
      · intro _ y' mo' hp'
        injection hp' with hp'
        injection hp' with hy hmo
        subst hy
        subst hmo
        exact hlt
      · intro _
        rfl

/-- Claim C3: for every (service, month) pair present when Cleanup runs, with
cutoff = now - retention-days, the month partition survives exactly when it is
not the case that its name parses as YYYY-MM with the first instant of the
following calendar month (UTC) strictly before the cutoff: a partition whose
end-of-month equals the cutoff is kept, and an unparsable month name is
preserved. -/
theorem spec_c3 (st : Store) (now ret : Int) (svc month : String)
    (ml : MonthList) (es : EntryList)
    (hsvc : (svc, ml) ∈ st) (hm : (month, es) ∈ ml) :
    hasMonth (cleanup st now ret) svc month ↔
      (∀ y mo : Int, parseMonth month = some (y, mo) →
        ¬ endOfMonthNanos y mo < now - ret * 86400000000000) := by
  rw [← monthKept_iff]
  constructor
  · rintro ⟨ml', hml', es', hes'⟩
    unfold cleanup at hml'
    obtain ⟨p, hp, hf⟩ := List.mem_filterMap.mp hml'
    by_cases hc : ((p.2.filter
          (fun q => monthKept (now - ret * 86400000000000) q.1)).isEmpty
        && !p.2.isEmpty) = true
    · rw [if_pos hc] at hf
      cases hf
    · rw [if_neg hc] at hf
      injection hf with hf
      have h2 : p.2.filter (fun q => monthKept (now - ret * 86400000000000) q.1) = ml' :=
        congrArg Prod.snd hf
      rw [← h2] at hes'
      exact (List.mem_filter.mp hes').2
  · intro hkept
    refine ⟨ml.filter (fun q => monthKept (now - ret * 86400000000000) q.1), ?_, es,
      List.mem_filter.mpr ⟨hm, hkept⟩⟩
    unfold cleanup
    apply List.mem_filterMap.mpr
    refine ⟨(svc, ml), hsvc, ?_⟩
    have hmem : (month, es) ∈ ml.filter
        (fun q => monthKept (now - ret * 86400000000000) q.1) :=
      List.mem_filter.mpr ⟨hm, hkept⟩
    have hne : ¬(((ml.filter
          (fun q => monthKept (now - ret * 86400000000000) q.1)).isEmpty
        && !ml.isEmpty) = true) := by
      intro hcontra
      rw [Bool.and_eq_true] at hcontra
      have := List.isEmpty_iff.mp hcontra.1
      rw [this] at hmem
      cases hmem
    rw [if_neg hne]

/-- Claim C3 witness: with retention 60 days and now in November 2023, the
partition 2020-01 is removed and 2024-01 is kept, both via the theorem. -/
theorem spec_c3_witness :
    ¬ hasMonth (cleanup [("websvc", [("2020-01", []), ("2024-01", [])])]
        1700000000000000000 60) "websvc" "2020-01" ∧
      hasMonth (cleanup [("websvc", [("2020-01", []), ("2024-01", [])])]
        1700000000000000000 60) "websvc" "2024-01" := by
  constructor
  · intro hh
    have hall := (spec_c3 [("websvc", [("2020-01", []), ("2024-01", [])])]
      1700000000000000000 60 "websvc" "2020-01"
      [("2020-01", []), ("2024-01", [])] [] (by simp) (by simp)).mp hh
    exact hall 2020 1 rfl (by decide)
  · refine (spec_c3 [("websvc", [("2020-01", []), ("2024-01", [])])]
      1700000000000000000 60 "websvc" "2024-01"
      [("2020-01", []), ("2024-01", [])] [] (by simp) (by simp)).mpr ?_
    intro y mo hp
    have hp' : (some ((2024 : Int), (1 : Int)) : Option (Int × Int)) = some (y, mo) := hp
    injection hp' with hp'
    injection hp' with hy hmo
    subst hy
    subst hmo
    decide

theorem bytesCmp_eq_iff' : ∀ a b : List Nat, bytesCmp a b = .eq ↔ a = b
  | [], [] => by simp [bytesCmp]
  | [], _ :: _ => by simp [bytesCmp]
  | _ :: _, [] => by simp [bytesCmp]
  | a :: as, b :: bs => by
    simp only [bytesCmp]
    split_ifs with h1 h2
    · simp only [List.cons.injEq]
      constructor
      · intro h; cases h
      · rintro ⟨rfl, -⟩; omega
    · simp only [List.cons.injEq]
      constructor
      · intro h; cases h
      · rintro ⟨rfl, -⟩; omega
    · have hab : a = b := by omega
      simp [hab, bytesCmp_eq_iff' as bs]

theorem bytesCmp_refl' (a : List Nat) : bytesCmp a a = .eq :=
  (bytesCmp_eq_iff' a a).mpr rfl

theorem charsCmp_trans : ∀ a b c : List Char,
    charsCmp a b = .lt → charsCmp b c = .lt → charsCmp a c = .lt
  | [], [], _, hab, _ => by simp [charsCmp] at hab
  | [], _ :: _, [], _, hbc => by simp [charsCmp] at hbc
  | [], _ :: _, _ :: _, _, _ => by simp [charsCmp]
  | _ :: _, [], _, hab, _ => by simp [charsCmp] at hab
  | _ :: _, _ :: _, [], _, hbc => by simp [charsCmp] at hbc
  | a :: as, b :: bs, c :: cs, hab, hbc => by
    simp only [charsCmp] at hab hbc ⊢
    by_cases h1 : a < b
    · by_cases h3 : b < c
      · rw [if_pos (lt_trans h1 h3)]
      · rw [if_neg h3] at hbc
        by_cases h4 : c < b
        · rw [if_pos h4] at hbc; cases hbc
        · have heq : b = c := le_antisymm (not_lt.mp h4) (not_lt.mp h3)
          rw [if_pos (heq ▸ h1)]
    · rw [if_neg h1] at hab
      by_cases h2 : b < a
      · rw [if_pos h2] at hab; cases hab
      · rw [if_neg h2] at hab
        have heq : a = b := le_antisymm (not_lt.mp h2) (not_lt.mp h1)
        subst heq
        by_cases h3 : a < c
        · rw [if_pos h3]
        · rw [if_neg h3] at hbc ⊢
          by_cases h4 : c < a
          · rw [if_pos h4] at hbc; cases hbc
          · rw [if_neg h4] at hbc ⊢
            exact charsCmp_trans as bs cs hab hbc

theorem strLt_trans' {a b c : String} (h1 : strLt a b) (h2 : strLt b c) : strLt a c :=
  charsCmp_trans _ _ _ h1 h2

theorem charsCmp_gt_iff' : ∀ a b : List Char, charsCmp a b = .gt ↔ charsCmp b a = .lt
  | [], [] => by simp [charsCmp]
  | [], _ :: _ => by simp [charsCmp]
  | _ :: _, [] => by simp [charsCmp]
  | a :: as, b :: bs => by
    simp only [charsCmp]
    split_ifs with h1 h2 <;> try simp_all [lt_asymm]
    · exact charsCmp_gt_iff' as bs

theorem charsCmp_eq_iff2 : ∀ a b : List Char, charsCmp a b = .eq ↔ a = b
  | [], [] => by simp [charsCmp]
  | [], _ :: _ => by simp [charsCmp]
  | _ :: _, [] => by simp [charsCmp]
  | a :: as, b :: bs => by
    simp only [charsCmp]
    split_ifs with h1 h2
    · simp only [List.cons.injEq]
      constructor
      · intro h; cases h
      · rintro ⟨rfl, -⟩; exact absurd h1 (lt_irrefl a)
    · simp only [List.cons.injEq]
      constructor
      · intro h; cases h
      · rintro ⟨rfl, -⟩; exact absurd h2 (lt_irrefl a)
    · have hab : a = b := le_antisymm (not_lt.mp h2) (not_lt.mp h1)
      simp [hab, charsCmp_eq_iff2 as bs]

theorem string_data_inj' {a b : String} (h : a.data = b.data) : a = b := by
  cases a; cases b; exact congrArg String.mk h

theorem strLt_irrefl2 (a : String) : ¬ strLt a a := by
  simp [strLt, (charsCmp_eq_iff2 a.data a.data).mpr rfl]

theorem strLt_total {a b : String} (h1 : ¬ strLt a b) (h2 : ¬ a = b) : strLt b a := by
  rcases hc : charsCmp a.data b.data with h | h | h
  · exact absurd hc h1
  · exact absurd (string_data_inj' ((charsCmp_eq_iff2 _ _).mp hc)) h2
  · exact (charsCmp_gt_iff' _ _).mp hc

theorem ord_beq_eq_false {o : Ordering} (h : o ≠ .eq) : (o == Ordering.eq) = false := by
  rcases o with - | - | -
  · rfl
  · exact absurd rfl h
  · rfl

/-! ## Entry-level insertion -/

theorem insertEntry_length (k : List Nat) (v : Option Span) : ∀ es : EntryList,
    (∀ e ∈ es, bytesCmp e.1 k ≠ .eq) → (insertEntry k v es).length = es.length + 1
  | [], _ => rfl
  | e :: rest, h => by
    rw [insertEntry]
    rcases hc : bytesCmp k e.1 with - | - | -
    · simp
    · exfalso
      have hk : k = e.1 := (bytesCmp_eq_iff' _ _).mp hc
      exact h e (List.mem_cons_self e rest) (by rw [hk]; exact bytesCmp_refl' _)
    · simp only [List.length_cons]
      rw [insertEntry_length k v rest (fun e' he' => h e' (List.mem_cons_of_mem _ he'))]

theorem insertEntry_find_ne (k : List Nat) (v : Option Span) (k' : List Nat)
    (hne : bytesCmp k k' ≠ .eq) : ∀ es : EntryList,
    (insertEntry k v es).find? (fun e => bytesCmp e.1 k' == .eq) =
      es.find? (fun e => bytesCmp e.1 k' == .eq)
  | [] => by
    have hb : (bytesCmp k k' == Ordering.eq) = false := ord_beq_eq_false hne
    rw [insertEntry]
    simp [List.find?_cons, hb]
  | e :: rest => by
    have hb : (bytesCmp k k' == Ordering.eq) = false := ord_beq_eq_false hne
    rw [insertEntry]
    rcases hc : bytesCmp k e.1 with - | - | -
    · simp [List.find?_cons, hb]
    · have hk : k = e.1 := (bytesCmp_eq_iff' _ _).mp hc
      have hb' : (bytesCmp e.1 k' == Ordering.eq) = false := by rw [← hk]; exact hb
      simp [List.find?_cons, hb, hb']
    · simp only [List.find?_cons]
      cases hp : (bytesCmp e.1 k' == Ordering.eq)
      · simp only [cond_false]
        exact insertEntry_find_ne k v k' hne rest
      · simp

/-! ## Month-level lookup helpers -/

theorem lookupMonth_nil (m : String) : lookupMonth [] m = none := rfl

theorem lookupMK_nil (m : String) (k : List Nat) : lookupMK [] m k = none := rfl

theorem lookupMonth_cons_ne (q : String × EntryList) (rest : MonthList) (m : String)
    (h : q.1 ≠ m) : lookupMonth (q :: rest) m = lookupMonth rest m := by
  unfold lookupMonth
  rw [List.find?_cons, show (q.1 == m) = false from beq_eq_false_iff_ne.mpr h]

theorem lookupMonth_cons_eq (q : String × EntryList) (rest : MonthList) :
    lookupMonth (q :: rest) q.1 = some q.2 := by
  unfold lookupMonth
  rw [List.find?_cons, show (q.1 == q.1) = true from beq_self_eq_true _]
  rfl

theorem lookupMK_cons_ne (q : String × EntryList) (rest : MonthList) (m : String)
    (k : List Nat) (h : q.1 ≠ m) : lookupMK (q :: rest) m k = lookupMK rest m k := by
  unfold lookupMK
  rw [lookupMonth_cons_ne q rest m h]

theorem lookupMK_cons_eq (q : String × EntryList) (rest : MonthList) (k : List Nat) :
    lookupMK (q :: rest) q.1 k =
      (q.2.find? (fun e => bytesCmp e.1 k == Ordering.eq)).map (fun e => e.2) := by
  unfold lookupMK
  rw [lookupMonth_cons_eq q rest]

theorem lookupMonth_none_of_lt (m : String) : ∀ ml : MonthList,
    (∀ q ∈ ml, strLt m q.1) → lookupMonth ml m = none
  | [], _ => rfl
  | q :: rest, hall => by
    rw [lookupMonth_cons_ne q rest m
      (fun he => strLt_irrefl2 m (he ▸ hall q (List.mem_cons_self q rest)))]
    exact lookupMonth_none_of_lt m rest (fun r hr => hall r (List.mem_cons_of_mem q hr))

/-! ## Month-level insertion -/

theorem insertMonthRec_count_fresh (m : String) (k : List Nat) (v : Option Span) :
    ∀ ml : MonthList, lookupMK ml m k = none →
    mlCount (insertMonthRec m k v ml) = mlCount ml + 1
  | [], _ => by simp [insertMonthRec, mlCount]
  | q :: rest, hfresh => by
    rw [insertMonthRec]
    by_cases he : m = q.1
    · rw [if_pos he]
      subst he
      rw [lookupMK_cons_eq q rest k] at hfresh
      have hfind : q.2.find? (fun e => bytesCmp e.1 k == Ordering.eq) = none := by
        rcases hf : q.2.find? (fun e => bytesCmp e.1 k == Ordering.eq) with - | e
        · exact hf
        · rw [hf] at hfresh
          exact Option.noConfusion hfresh
      have hfr : ∀ e ∈ q.2, ¬(bytesCmp e.1 k = .eq) := by
        intro e hee hcc
        have hnp := List.find?_eq_none.mp hfind e hee
        rw [hcc] at hnp
        exact hnp rfl
      simp only [mlCount, List.map_cons, List.sum_cons]
      rw [insertEntry_length k v q.2 hfr]
      omega
    · rw [if_neg he]
      by_cases hlt : strLt m q.1
      · rw [if_pos hlt]
        simp only [mlCount, List.map_cons, List.sum_cons, List.length_cons, List.length_nil]
        omega
      · rw [if_neg hlt]
        have htail : lookupMK rest m k = none := by
          rw [← lookupMK_cons_ne q rest m k (Ne.symm he)]
          exact hfresh
        simp only [mlCount, List.map_cons, List.sum_cons]
        rw [show (List.map (fun q => q.2.length) (insertMonthRec m k v rest)).sum
            = mlCount (insertMonthRec m k v rest) from rfl,
          insertMonthRec_count_fresh m k v rest htail]
        simp only [mlCount]
        omega

theorem insertMonthRec_mem (m : String) (k : List Nat) (v : Option Span) :
    ∀ ml : MonthList, ∀ x ∈ insertMonthRec m k v ml,
      x.1 = m ∨ x ∈ ml
  | [], x, hx => by
    rw [insertMonthRec] at hx
    rcases List.mem_cons.mp hx with hx | hx
    · exact Or.inl (by rw [hx])
    · cases hx
  | q :: rest, x, hx => by
    rw [insertMonthRec] at hx
    by_cases he : m = q.1
    · rw [if_pos he] at hx
      rcases List.mem_cons.mp hx with hx | hx
      · exact Or.inl (by rw [hx, he])
      · exact Or.inr (List.mem_cons_of_mem q hx)
    · rw [if_neg he] at hx
      by_cases hlt : strLt m q.1
      · rw [if_pos hlt] at hx
        rcases List.mem_cons.mp hx with hx | hx
        · exact Or.inl (by rw [hx])
        · exact Or.inr hx
      · rw [if_neg hlt] at hx
        rcases List.mem_cons.mp hx with hx | hx
        · exact Or.inr (by rw [hx]; exact List.mem_cons_self q rest)
        · rcases insertMonthRec_mem m k v rest x hx with h | h
          · exact Or.inl h
          · exact Or.inr (List.mem_cons_of_mem q h)

theorem insertMonthRec_pairwise (m : String) (k : List Nat) (v : Option Span) :
    ∀ ml : MonthList, ml.Pairwise (fun a b => strLt a.1 b.1) →
    (insertMonthRec m k v ml).Pairwise (fun a b => strLt a.1 b.1)
  | [], _ => by
    rw [insertMonthRec]
    exact List.pairwise_singleton _ _
  | q :: rest, hp => by
    obtain ⟨hq, hptail⟩ := List.pairwise_cons.mp hp
    rw [insertMonthRec]
    by_cases he : m = q.1
    · rw [if_pos he]
      exact List.pairwise_cons.mpr ⟨hq, hptail⟩
    · rw [if_neg he]
      by_cases hlt : strLt m q.1
      · rw [if_pos hlt]
        refine List.pairwise_cons.mpr ⟨?_, hp⟩
        intro r hr
        rcases List.mem_cons.mp hr with hr | hr
        · rw [hr]; exact hlt
        · exact strLt_trans' hlt (hq r hr)
      · rw [if_neg hlt]
        have hqm : strLt q.1 m := strLt_total hlt he
        refine List.pairwise_cons.mpr ⟨?_, insertMonthRec_pairwise m k v rest hptail⟩
        intro r hr
        rcases insertMonthRec_mem m k v rest r hr with h | h
        · rw [h]; exact hqm
        · exact hq r h

theorem insertMonthRec_lookupMK_ne (m : String) (k : List Nat) (v : Option Span)
    (m' : String) (k' : List Nat) (hk : bytesCmp k k' ≠ .eq) :
    ∀ ml : MonthList, ml.Pairwise (fun a b => strLt a.1 b.1) →
    lookupMK (insertMonthRec m k v ml) m' k' = lookupMK ml m' k'
  | [], _ => by
    have hb : (bytesCmp k k' == Ordering.eq) = false := ord_beq_eq_false hk
    rw [insertMonthRec, lookupMK_nil]
    by_cases he : m = m'
    · subst he
      rw [lookupMK_cons_eq (m, [(k, v)]) [] k']
      simp [List.find?_cons, hb]
    · rw [lookupMK_cons_ne (m, [(k, v)]) [] m' k' he, lookupMK_nil]
  | q :: rest, hp => by
    have hb : (bytesCmp k k' == Ordering.eq) = false := ord_beq_eq_false hk
    obtain ⟨hq, hptail⟩ := List.pairwise_cons.mp hp
    rw [insertMonthRec]
    by_cases he : m = q.1
    · rw [if_pos he]
      by_cases he' : q.1 = m'
      · subst he'
        rw [lookupMK_cons_eq (q.1, insertEntry k v q.2) rest k',
          lookupMK_cons_eq q rest k']
        rw [show (q.1, insertEntry k v q.2).2 = insertEntry k v q.2 from rfl,
          insertEntry_find_ne k v k' hk q.2]
      · rw [lookupMK_cons_ne (q.1, insertEntry k v q.2) rest m' k' he',
          lookupMK_cons_ne q rest m' k' he']
    · rw [if_neg he]
      by_cases hlt : strLt m q.1
      · rw [if_pos hlt]
        by_cases he' : m = m'
        · subst he'
          rw [lookupMK_cons_eq (m, [(k, v)]) (q :: rest) k']
          have hnone : lookupMonth (q :: rest) m = none := by
            apply lookupMonth_none_of_lt m (q :: rest)
            intro r hr
            rcases List.mem_cons.mp hr with hr | hr
            · rw [hr]; exact hlt
            · exact strLt_trans' hlt (hq r hr)
          rw [show lookupMK (q :: rest) m k' =
              (match lookupMonth (q :: rest) m with
                | none => none
                | some es => (es.find? (fun e => bytesCmp e.1 k' == Ordering.eq)).map
                    (fun e => e.2)) from rfl, hnone]
          simp [List.find?_cons, hb]
        · rw [lookupMK_cons_ne (m, [(k, v)]) (q :: rest) m' k' he']
      · rw [if_neg hlt]
        by_cases he' : q.1 = m'
        · subst he'
          rw [lookupMK_cons_eq (q.1, q.2) (insertMonthRec m k v rest) k',
            lookupMK_cons_eq q rest k']
        · rw [lookupMK_cons_ne (q.1, q.2) (insertMonthRec m k v rest) m' k' he',
            lookupMK_cons_ne q rest m' k' he']
          exact insertMonthRec_lookupMK_ne m k v m' k' hk rest hptail

/-! ## Service-level lookup helpers -/

theorem lookupSvc_cons_ne (p : String × MonthList) (rest : Store) (svc : String)
    (h : p.1 ≠ svc) : lookupSvc (p :: rest) svc = lookupSvc rest svc := by
  unfold lookupSvc
  rw [List.find?_cons, show (p.1 == svc) = false from beq_eq_false_iff_ne.mpr h]

theorem lookupSvc_cons_eq (p : String × MonthList) (rest : Store) :
    lookupSvc (p :: rest) p.1 = some p.2 := by
  unfold lookupSvc
  rw [List.find?_cons, show (p.1 == p.1) = true from beq_self_eq_true _]
  rfl

theorem lookupSvc_nil (svc : String) : lookupSvc ([] : Store) svc = none := rfl

theorem lookupSvc_cons_eq2 (s : String) (ml : MonthList) (rest : Store) :
    lookupSvc ((s, ml) :: rest) s = some ml := by
  unfold lookupSvc
  rw [List.find?_cons, show ((s, ml).1 == s) = true from beq_self_eq_true s]
  rfl

theorem svcCount_some {st : Store} {svc : String} {ml : MonthList}
    (h : lookupSvc st svc = some ml) : svcCount st svc = mlCount ml := by
  unfold svcCount
  rw [h]

theorem svcCount_none {st : Store} {svc : String}
    (h : lookupSvc st svc = none) : svcCount st svc = 0 := by
  unfold svcCount
  rw [h]

theorem lookupKey_some {st : Store} {svc : String} {ml : MonthList}
    (h : lookupSvc st svc = some ml) (m : String) (k : List Nat) :
    lookupKey st svc m k = lookupMK ml m k := by
  unfold lookupKey
  rw [h]

theorem lookupKey_none2 {st : Store} {svc : String}
    (h : lookupSvc st svc = none) (m : String) (k : List Nat) :
    lookupKey st svc m k = none := by
  unfold lookupKey
  rw [h]

theorem lookupSvc_none_of_lt (svc : String) : ∀ st : Store,
    (∀ p ∈ st, strLt svc p.1) → lookupSvc st svc = none
  | [], _ => rfl
  | p :: rest, hall => by
    rw [lookupSvc_cons_ne p rest svc
      (fun he => strLt_irrefl2 svc (he ▸ hall p (List.mem_cons_self p rest)))]
    exact lookupSvc_none_of_lt svc rest (fun r hr => hall r (List.mem_cons_of_mem p hr))

/-! ## putRecord -/

theorem putRecord_count_fresh (svc m : String) (k : List Nat) (v : Option Span) :
    ∀ st : Store, SvcSorted st → lookupKey st svc m k = none →
    svcCount (putRecord st svc m k v) svc = svcCount st svc + 1
  | [], _, _ => by
    have hpr : putRecord [] svc m k v = [(svc, insertMonthRec m k v [])] := rfl
    rw [hpr, svcCount_some (lookupSvc_cons_eq2 svc (insertMonthRec m k v []) []),
      insertMonthRec_count_fresh m k v [] (lookupMK_nil m k),
      svcCount_none (lookupSvc_nil svc)]
    rfl
  | (ps, pml) :: rest, hsv, hfresh => by
    obtain ⟨hp1, hsvtail⟩ := List.pairwise_cons.mp hsv
    have hpr : putRecord ((ps, pml) :: rest) svc m k v =
        if svc = ps then (ps, insertMonthRec m k v pml) :: rest
        else if strLt svc ps then
          (svc, insertMonthRec m k v []) :: (ps, pml) :: rest
        else (ps, pml) :: putRecord rest svc m k v := rfl
    rw [hpr]
    by_cases he : svc = ps
    · rw [if_pos he]
      subst he
      have hfresh' : lookupMK pml m k = none := by
        rw [lookupKey_some (lookupSvc_cons_eq2 svc pml rest) m k] at hfresh
        exact hfresh
      rw [svcCount_some (lookupSvc_cons_eq2 svc (insertMonthRec m k v pml) rest),
        insertMonthRec_count_fresh m k v pml hfresh',
        svcCount_some (lookupSvc_cons_eq2 svc pml rest)]
    · rw [if_neg he]
      by_cases hlt : strLt svc ps
      · rw [if_pos hlt]
        have hnone : lookupSvc ((ps, pml) :: rest) svc = none := by
          apply lookupSvc_none_of_lt
          intro r hr
          rcases List.mem_cons.mp hr with hr | hr
          · rw [hr]; exact hlt
          · exact strLt_trans' hlt (hp1 r hr)
        rw [svcCount_some
            (lookupSvc_cons_eq2 svc (insertMonthRec m k v []) ((ps, pml) :: rest)),
          insertMonthRec_count_fresh m k v [] (lookupMK_nil m k),
          svcCount_none hnone]
        rfl
      · rw [if_neg hlt]
        have hne : (ps, pml).1 ≠ svc := Ne.symm he
        have hfresh' : lookupKey rest svc m k = none := by
          unfold lookupKey at hfresh ⊢
          rw [lookupSvc_cons_ne (ps, pml) rest svc hne] at hfresh
          exact hfresh
        have IH := putRecord_count_fresh svc m k v rest hsvtail hfresh'
        unfold svcCount at IH ⊢
        rw [lookupSvc_cons_ne (ps, pml) (putRecord rest svc m k v) svc hne,
          lookupSvc_cons_ne (ps, pml) rest svc hne]
        exact IH

theorem putRecord_mem (svc m : String) (k : List Nat) (v : Option Span) :
    ∀ st : Store, ∀ x ∈ putRecord st svc m k v, x.1 = svc ∨ x ∈ st
  | [], x, hx => by
    rw [putRecord] at hx
    rcases List.mem_cons.mp hx with hx | hx
    · exact Or.inl (by rw [hx])
    · cases hx
  | p :: rest, x, hx => by
    rw [putRecord] at hx
    by_cases he : svc = p.1
    · rw [if_pos he] at hx
      rcases List.mem_cons.mp hx with hx | hx
      · exact Or.inl (by rw [hx, he])
      · exact Or.inr (List.mem_cons_of_mem p hx)
    · rw [if_neg he] at hx
      by_cases hlt : strLt svc p.1
      · rw [if_pos hlt] at hx
        rcases List.mem_cons.mp hx with hx | hx
        · exact Or.inl (by rw [hx])
        · exact Or.inr hx
      · rw [if_neg hlt] at hx
        rcases List.mem_cons.mp hx with hx | hx
        · exact Or.inr (by rw [hx]; exact List.mem_cons_self p rest)
        · rcases putRecord_mem svc m k v rest x hx with h | h
          · exact Or.inl h
          · exact Or.inr (List.mem_cons_of_mem p h)

theorem putRecord_sorted (svc m : String) (k : List Nat) (v : Option Span) :
    ∀ st : Store, SvcSorted st → SvcSorted (putRecord st svc m k v)
  | [], _ => by
    rw [putRecord]
    exact List.pairwise_singleton _ _
  | p :: rest, hsv => by
    obtain ⟨hp1, hsvtail⟩ := List.pairwise_cons.mp hsv
    rw [putRecord]
    by_cases he : svc = p.1
    · rw [if_pos he]
      exact List.pairwise_cons.mpr ⟨hp1, hsvtail⟩
    · rw [if_neg he]
      by_cases hlt : strLt svc p.1
      · rw [if_pos hlt]
        refine List.pairwise_cons.mpr ⟨?_, hsv⟩
        intro r hr
        rcases List.mem_cons.mp hr with hr | hr
        · rw [hr]; exact hlt
        · exact strLt_trans' hlt (hp1 r hr)
      · rw [if_neg hlt]
        have hps : strLt p.1 svc := strLt_total hlt he
        refine List.pairwise_cons.mpr ⟨?_, putRecord_sorted svc m k v rest hsvtail⟩
        intro r hr
        rcases putRecord_mem svc m k v rest r hr with h | h
        · rw [h]; exact hps
        · exact hp1 r h

theorem putRecord_monthsSorted (svc m : String) (k : List Nat) (v : Option Span) :
    ∀ st : Store, MonthsSorted st → MonthsSorted (putRecord st svc m k v)
  | [], _ => by
    rw [putRecord]
    intro x hx
    rcases List.mem_cons.mp hx with hx | hx
    · rw [hx]
      exact insertMonthRec_pairwise m k v [] List.Pairwise.nil
    · cases hx
  | p :: rest, hms => by
    have hmshead := hms p (List.mem_cons_self p rest)
    have hmstail : MonthsSorted rest := fun r hr => hms r (List.mem_cons_of_mem p hr)
    rw [putRecord]
    by_cases he : svc = p.1
    · rw [if_pos he]
      intro x hx
      rcases List.mem_cons.mp hx with hx | hx
      · rw [hx]
        exact insertMonthRec_pairwise m k v p.2 hmshead
      · exact hmstail x hx
    · rw [if_neg he]
      by_cases hlt : strLt svc p.1
      · rw [if_pos hlt]
        intro x hx
        rcases List.mem_cons.mp hx with hx | hx
        · rw [hx]
          exact insertMonthRec_pairwise m k v [] List.Pairwise.nil
        · exact hms x hx
      · rw [if_neg hlt]
        intro x hx
        rcases List.mem_cons.mp hx with hx | hx
        · rw [hx]
          exact hmshead
        · exact putRecord_monthsSorted svc m k v rest hmstail x hx

theorem putRecord_lookupKey_ne (svc m : String) (k : List Nat) (v : Option Span)
    (m' : String) (k' : List Nat) (hk : bytesCmp k k' ≠ .eq) :
    ∀ st : Store, SvcSorted st → MonthsSorted st →
    lookupKey (putRecord st svc m k v) svc m' k' = lookupKey st svc m' k'
  | [], _, _ => by
    have hpr : putRecord [] svc m k v = [(svc, insertMonthRec m k v [])] := rfl
    rw [hpr, lookupKey_some (lookupSvc_cons_eq2 svc (insertMonthRec m k v []) []) m' k',
      insertMonthRec_lookupMK_ne m k v m' k' hk [] List.Pairwise.nil, lookupMK_nil,
      lookupKey_none2 (lookupSvc_nil svc) m' k']
  | (ps, pml) :: rest, hsv, hms => by
    obtain ⟨hp1, hsvtail⟩ := List.pairwise_cons.mp hsv
    have hmshead := hms (ps, pml) (List.mem_cons_self _ rest)
    have hmstail : MonthsSorted rest := fun r hr => hms r (List.mem_cons_of_mem _ hr)
    have hpr : putRecord ((ps, pml) :: rest) svc m k v =
        if svc = ps then (ps, insertMonthRec m k v pml) :: rest
        else if strLt svc ps then
          (svc, insertMonthRec m k v []) :: (ps, pml) :: rest
        else (ps, pml) :: putRecord rest svc m k v := rfl
    rw [hpr]
    by_cases he : svc = ps
    · rw [if_pos he]
      subst he
      rw [lookupKey_some (lookupSvc_cons_eq2 svc (insertMonthRec m k v pml) rest) m' k',
        lookupKey_some (lookupSvc_cons_eq2 svc pml rest) m' k']
      exact insertMonthRec_lookupMK_ne m k v m' k' hk pml hmshead
    · rw [if_neg he]
      by_cases hlt : strLt svc ps
      · rw [if_pos hlt]
        have hnone : lookupSvc ((ps, pml) :: rest) svc = none := by
          apply lookupSvc_none_of_lt
          intro r hr
          rcases List.mem_cons.mp hr with hr | hr
          · rw [hr]; exact hlt
          · exact strLt_trans' hlt (hp1 r hr)
        rw [lookupKey_some
            (lookupSvc_cons_eq2 svc (insertMonthRec m k v []) ((ps, pml) :: rest)) m' k',
          insertMonthRec_lookupMK_ne m k v m' k' hk [] List.Pairwise.nil,
          lookupMK_nil, lookupKey_none2 hnone m' k']
      · rw [if_neg hlt]
        have hne : (ps, pml).1 ≠ svc := Ne.symm he
        unfold lookupKey
        rw [lookupSvc_cons_ne (ps, pml) (putRecord rest svc m k v) svc hne,
          lookupSvc_cons_ne (ps, pml) rest svc hne]
        have IH := putRecord_lookupKey_ne svc m k v m' k' hk rest hsvtail hmstail
        unfold lookupKey at IH
        exact IH

/-! ## The write fold -/

theorem putFold_count (svc : String) : ∀ (es : List (String × List Nat × Span)) (st : Store),
    SvcSorted st → MonthsSorted st →
    (es.map (fun e => e.2.1)).Pairwise (fun a b => a ≠ b) →
    (∀ e ∈ es, lookupKey st svc e.1 e.2.1 = none) →
    svcCount (es.foldl (fun s e => putRecord s svc e.1 e.2.1 (some e.2.2)) st) svc =
      svcCount st svc + es.length
  | [], st, _, _, _, _ => by simp
  | e :: rest, st, hsv, hms, hnd, hfresh => by
    rw [List.foldl_cons]
    have h1 := putRecord_count_fresh svc e.1 e.2.1 (some e.2.2) st hsv
      (hfresh e (List.mem_cons_self e rest))
    rw [List.map_cons] at hnd
    obtain ⟨hhd, hndtail⟩ := List.pairwise_cons.mp hnd
    have IH := putFold_count svc rest (putRecord st svc e.1 e.2.1 (some e.2.2))
      (putRecord_sorted svc e.1 e.2.1 (some e.2.2) st hsv)
      (putRecord_monthsSorted svc e.1 e.2.1 (some e.2.2) st hms)
      hndtail
      (fun e' he' => by
        have hne : e.2.1 ≠ e'.2.1 := hhd e'.2.1 (List.mem_map.mpr ⟨e', he', rfl⟩)
        have hkne : bytesCmp e.2.1 e'.2.1 ≠ .eq :=
          fun hc => hne ((bytesCmp_eq_iff' _ _).mp hc)
        rw [putRecord_lookupKey_ne svc e.1 e.2.1 (some e.2.2) e'.1 e'.2.1 hkne st hsv hms]
        exact hfresh e' (List.mem_cons_of_mem e he'))
    rw [IH, h1]
    simp only [List.length_cons]
    omega

theorem writeEntries_length (now : Nat) : ∀ (sps : List Span) (ents : List (List Nat))
    (es : List (String × List Nat × Span)),
    writeEntries now sps ents = some es → es.length = sps.length
  | [], _, es, h => by
    rw [writeEntries] at h
    injection h with h
    rw [← h]
    rfl
  | sp :: sps, [], es, h => by
    rw [writeEntries] at h
    cases h
  | sp :: sps, ent :: ents, es, h => by
    rw [writeEntries] at h
    rcases hk : makeKey (msOfNanos ((spanStartTime sp now : Nat) : Int)) ent sp.spanId
      with - | k
    · rw [hk] at h
      cases h
    · rw [hk] at h
      rcases hw : writeEntries now sps ents with - | rest
      · rw [hw] at h
        cases h
      · rw [hw] at h
        injection h with h
        rw [← h]
        simp only [List.length_cons]
        rw [writeEntries_length now sps ents rest hw]

/-- Claim C5: a successful WriteResourceSpans of a batch with N spans (summed
over all scopes, producing the month/key/span triples `es`) adds exactly N
records to the service partition named by the batch's service.name attribute
(or unknown), distributed across its month partitions.  No record is lost to
key collision: the hypotheses state that the freshly generated keys are
pairwise distinct and absent from the store, which is exactly what the 80
random ULID bits guarantee. -/
theorem spec_c5 (st : Store) (rs : ResourceSpans) (now : Nat)
    (ents : List (List Nat)) (st' : Store)
    (es : List (String × List Nat × Span))
    (hsv : SvcSorted st) (hms : MonthsSorted st)
    (hwe : writeEntries now (allSpans rs) ents = some es)
    (hw : writeResourceSpans st rs now ents = some st')
    (hdist : (es.map (fun e => e.2.1)).Pairwise (fun a b => a ≠ b))
    (hfresh : ∀ e ∈ es, lookupKey st (serviceName rs) e.1 e.2.1 = none) :
    svcCount st' (serviceName rs) =
      svcCount st (serviceName rs) + (allSpans rs).length := by
  unfold writeResourceSpans at hw
  rw [hwe] at hw
  injection hw with hw
  rw [← hw]
  rw [putFold_count (serviceName rs) es st hsv hms hdist hfresh]
  rw [writeEntries_length now (allSpans rs) ents es hwe]

/-- Witness for spec_c5: writing a one-span batch for service `websvc` into the
empty store yields exactly one stored record for that service. -/
theorem spec_c5_witness :
    svcCount wSt (serviceName wRS) =
      svcCount [] (serviceName wRS) + (allSpans wRS).length :=
  spec_c5 [] wRS 0 [wEnt] wSt wEs
    List.Pairwise.nil
    (fun p hp => absurd hp (List.not_mem_nil p))
    (by rfl)
    (by rfl)
    (List.pairwise_singleton _ _)
    (fun e _ => rfl)

/-! ## Claim C1 (GetSpans: limit, descending key order, unknown service) -/

theorem insertDesc_perm (x : String) : ∀ l : List String,
    List.Perm (insertDesc x l) (x :: l)
  | [] => List.Perm.refl _
  | y :: ys => by
    rw [insertDesc]
    by_cases h : strLt y x
    · rw [if_pos h]
    · rw [if_neg h]
      exact List.Perm.trans (List.Perm.cons y (insertDesc_perm x ys))
        (List.Perm.swap x y ys)

theorem sortDescStr_perm : ∀ l : List String, List.Perm (sortDescStr l) l
  | [] => List.Perm.refl _
  | x :: xs => by
    unfold sortDescStr
    rw [List.foldr_cons]
    exact List.Perm.trans (insertDesc_perm x (sortDescStr xs))
      (List.Perm.cons x (sortDescStr_perm xs))

theorem insertDesc_sorted (x : String) : ∀ l : List String,
    l.Pairwise (fun a b => ¬ strLt a b) →
    (insertDesc x l).Pairwise (fun a b => ¬ strLt a b)
  | [], _ => List.pairwise_singleton _ _
  | y :: ys, h => by
    obtain ⟨hy, hys⟩ := List.pairwise_cons.mp h
    rw [insertDesc]
    by_cases hlt : strLt y x
    · rw [if_pos hlt]
      refine List.pairwise_cons.mpr ⟨?_, h⟩
      intro r hr
      rcases List.mem_cons.mp hr with hr | hr
      · rw [hr]
        exact fun hxr => strLt_irrefl2 y (strLt_trans' hlt hxr)
      · intro hxr
        exact hy r hr (strLt_trans' hlt hxr)
    · rw [if_neg hlt]
      refine List.pairwise_cons.mpr ⟨?_, insertDesc_sorted x ys hys⟩
      intro r hr
      rcases List.mem_cons.mp ((insertDesc_perm x ys).mem_iff.mp hr) with hr' | hr'
      · rw [hr']; exact hlt
      · exact hy r hr'

theorem sortDescStr_sorted : ∀ l : List String,
    (sortDescStr l).Pairwise (fun a b => ¬ strLt a b)
  | [] => List.Pairwise.nil
  | x :: xs => by
    unfold sortDescStr
    rw [List.foldr_cons]
    exact insertDesc_sorted x _ (sortDescStr_sorted xs)

/-- On a duplicate-free input, the sort is strictly descending. -/
theorem sortDescStr_desc (l : List String) (hnd : l.Pairwise (fun a b => a ≠ b)) :
    (sortDescStr l).Pairwise (fun a b => strLt b a) := by
  have hnd' : (sortDescStr l).Pairwise (fun a b => a ≠ b) :=
    (sortDescStr_perm l).nodup_iff.mpr hnd
  exact ((sortDescStr_sorted l).and hnd').imp (fun h => strLt_total h.1 h.2)

/-- The reverse-cursor walk of one month keeps the accumulator under the
limit, keeps the collected keys strictly descending when the (reversed)
entries are descending and smaller than everything already collected, and
only adds keys taken from the walked entries. -/
theorem takeRev_spec (limit : Nat) (month : String) :
    ∀ (es : EntryList) (acc : List (List Nat × SpanSummary)),
    acc.length ≤ limit →
    (acc.map Prod.fst).Pairwise (fun a b => bytesLt b a) →
    (∀ k ∈ acc.map Prod.fst, ∀ e ∈ es, bytesLt e.1 k) →
    es.Pairwise (fun d e => bytesLt e.1 d.1) →
    (takeRev limit month acc es).length ≤ limit ∧
    ((takeRev limit month acc es).map Prod.fst).Pairwise (fun a b => bytesLt b a) ∧
    (∀ k ∈ (takeRev limit month acc es).map Prod.fst,
      k ∈ acc.map Prod.fst ∨ ∃ e ∈ es, e.1 = k)
  | [], acc, hlen, hpw, _, _ => by
    rw [takeRev]
    exact ⟨hlen, hpw, fun k hk => Or.inl hk⟩
  | e :: rest, acc, hlen, hpw, hdom, hsorted => by
    rw [takeRev]
    by_cases hl : limit ≤ acc.length
    · rw [if_pos hl]
      exact ⟨hlen, hpw, fun k hk => Or.inl hk⟩
    · rw [if_neg hl]
      obtain ⟨hd, hrest⟩ := List.pairwise_cons.mp hsorted
      rcases hv : e.2 with - | sp
      · have h := takeRev_spec limit month rest acc hlen hpw
          (fun k hk e' he' => hdom k hk e' (List.mem_cons_of_mem e he')) hrest
        exact ⟨h.1, h.2.1, fun k hk => (h.2.2 k hk).imp id
          (fun hq => ⟨hq.choose, List.mem_cons_of_mem e hq.choose_spec.1,
            hq.choose_spec.2⟩)⟩
      · have hlen' : (acc ++ [(e.1, buildSummary sp month)]).length ≤ limit := by
          rw [List.length_append]
          simp only [List.length_singleton]
          omega
        have hmapapp : (acc ++ [(e.1, buildSummary sp month)]).map Prod.fst
            = acc.map Prod.fst ++ [e.1] := by
          rw [List.map_append]
          rfl
        have hpw' : ((acc ++ [(e.1, buildSummary sp month)]).map Prod.fst).Pairwise
            (fun a b => bytesLt b a) := by
          rw [hmapapp]
          refine List.pairwise_append.mpr ⟨hpw, List.pairwise_singleton _ _, ?_⟩
          intro a ha b hb
          rw [List.mem_singleton.mp hb]
          exact hdom a ha e (List.mem_cons_self e rest)
        have hdom' : ∀ k ∈ (acc ++ [(e.1, buildSummary sp month)]).map Prod.fst,
            ∀ e' ∈ rest, bytesLt e'.1 k := by
          intro k hk e' he'
          rw [hmapapp] at hk
          rcases List.mem_append.mp hk with hk | hk
          · exact hdom k hk e' (List.mem_cons_of_mem e he')
          · rw [List.mem_singleton.mp hk]
            exact hd e' he'
        have h := takeRev_spec limit month rest (acc ++ [(e.1, buildSummary sp month)])
          hlen' hpw' hdom' hrest
        refine ⟨h.1, h.2.1, ?_⟩
        intro k hk
        rcases h.2.2 k hk with hk' | hq
        · rw [hmapapp] at hk'
          rcases List.mem_append.mp hk' with hk'' | hk''
          · exact Or.inl hk''
          · exact Or.inr ⟨e, List.mem_cons_self e rest,
              (List.mem_singleton.mp hk'').symm⟩
        · exact Or.inr ⟨hq.choose, List.mem_cons_of_mem e hq.choose_spec.1,
            hq.choose_spec.2⟩

/-- The month loop of GetSpans keeps the result under the limit and the keys
strictly descending, for a month list with sorted entries and the cross-month
key/name agreement, walked in strictly descending name order. -/
theorem getSpansGo_spec (ml : MonthList)
    (hcm : ∀ q1 ∈ ml, ∀ q2 ∈ ml, strLt q1.1 q2.1 →
      ∀ e1 ∈ q1.2, ∀ e2 ∈ q2.2, bytesLt e1.1 e2.1)
    (hes : ∀ q ∈ ml, q.2.Pairwise (fun d e => bytesLt d.1 e.1))
    (limit : Nat) :
    ∀ (ms : List String) (acc : List (List Nat × SpanSummary)),
    acc.length ≤ limit →
    (acc.map Prod.fst).Pairwise (fun a b => bytesLt b a) →
    ms.Pairwise (fun a b => strLt b a) →
    (∀ k ∈ acc.map Prod.fst, ∀ m ∈ ms, ∀ q ∈ ml, q.1 = m →
      ∀ e ∈ q.2, bytesLt e.1 k) →
    (getSpansGo ml limit acc ms).length ≤ limit ∧
    ((getSpansGo ml limit acc ms).map Prod.fst).Pairwise (fun a b => bytesLt b a)
  | [], acc, hlen, hpw, _, _ => by
    rw [getSpansGo]
    exact ⟨hlen, hpw⟩
  | m :: ms', acc, hlen, hpw, hms, hdom => by
    rw [getSpansGo]
    by_cases hl : limit ≤ acc.length
    · rw [if_pos hl]
      exact ⟨hlen, hpw⟩
    · rw [if_neg hl]
      obtain ⟨hm1, hmstail⟩ := List.pairwise_cons.mp hms
      rcases hlm : lookupMonth ml m with - | es
      · exact getSpansGo_spec ml hcm hes limit ms' acc hlen hpw hmstail
          (fun k hk m' hm' q hq hq1 e he =>
            hdom k hk m' (List.mem_cons_of_mem m hm') q hq hq1 e he)
      · have hqex : ∃ q ∈ ml, q.1 = m ∧ q.2 = es := by
          unfold lookupMonth at hlm
          rcases hf : ml.find? (fun q => q.1 == m) with - | q
          · rw [hf] at hlm
            exact Option.noConfusion hlm
          · rw [hf] at hlm
            injection hlm with hlm
            have hcq := List.find?_some hf
            have hcq' : (q.1 == m) = true := hcq
            exact ⟨q, List.mem_of_find?_eq_some hf, eq_of_beq hcq', hlm⟩
        obtain ⟨q, hqmem, hqm, hqes⟩ := hqex
        have hrev : es.reverse.Pairwise (fun d e => bytesLt e.1 d.1) := by
          rw [List.pairwise_reverse]
          have h := hes q hqmem
          rw [hqes] at h
          exact h
        have hdomes : ∀ k ∈ acc.map Prod.fst, ∀ e ∈ es.reverse, bytesLt e.1 k := by
          intro k hk e he
          have he' : e ∈ q.2 := by
            rw [hqes]
            exact List.mem_reverse.mp he
          exact hdom k hk m (List.mem_cons_self m ms') q hqmem hqm e he'
        have ht := takeRev_spec limit m es.reverse acc hlen hpw hdomes hrev
        refine getSpansGo_spec ml hcm hes limit ms' (takeRev limit m acc es.reverse)
          ht.1 ht.2.1 hmstail ?_
        intro k hk m' hm' q' hq' hq'1 e' he'
        rcases ht.2.2 k hk with hk' | hq
        · exact hdom k hk' m' (List.mem_cons_of_mem m hm') q' hq' hq'1 e' he'
        · obtain ⟨e, hemem, hek⟩ := hq
          have hlt : strLt q'.1 q.1 := by
            rw [hq'1, hqm]
            exact hm1 m' hm'
          have hemem' : e ∈ q.2 := by
            rw [hqes]
            exact List.mem_reverse.mp hemem
          rw [← hek]
          exact hcm q' hq' q hqmem hlt e' he' e hemem'

/-- Claim C1: on a well-formed store, GetSpans(service, n) returns at most
`effLimit n` summaries (50 when n ≤ 0, n otherwise), the stored keys backing
the result are strictly descending — newest first, months walked in
descending YYYY-MM order with a reverse cursor inside each — and an unknown
service yields the empty list. -/
theorem spec_c1 (st : Store) (svc : String) (n : Int) (hwf : WF st) :
    (getSpans st svc n).length ≤ effLimit n ∧
    ((getSpansKeyed st svc n).map Prod.fst).Pairwise (fun a b => bytesLt b a) ∧
    (n ≤ 0 → effLimit n = 50) ∧
    (lookupSvc st svc = none → getSpans st svc n = []) := by
  obtain ⟨⟨hsv, hmsrt, hesrt⟩, hkwf, hcm⟩ := hwf
  have hmain : (getSpansKeyed st svc n).length ≤ effLimit n ∧
      ((getSpansKeyed st svc n).map Prod.fst).Pairwise (fun a b => bytesLt b a) := by
    unfold getSpansKeyed
    rcases hls : lookupSvc st svc with - | ml
    · exact ⟨Nat.zero_le _, List.Pairwise.nil⟩
    · have hmem : ∃ p ∈ st, p.2 = ml := by
        unfold lookupSvc at hls
        rcases hf : st.find? (fun p => p.1 == svc) with - | p
        · rw [hf] at hls
          exact Option.noConfusion hls
        · rw [hf] at hls
          injection hls with hls
          exact ⟨p, List.mem_of_find?_eq_some hf, hls⟩
      obtain ⟨p, hp, hpml⟩ := hmem
      have hml2 : ∀ q, q ∈ ml → q ∈ p.2 := fun q hq => by
        rw [hpml]
        exact hq
      have hmlpw : ml.Pairwise (fun a b => strLt a.1 b.1) := by
        rw [← hpml]
        exact hmsrt p hp
      have hes' : ∀ q ∈ ml, q.2.Pairwise (fun d e => bytesLt d.1 e.1) :=
        fun q hq => hesrt p hp q (hml2 q hq)
      have hcm' : ∀ q1 ∈ ml, ∀ q2 ∈ ml, strLt q1.1 q2.1 →
          ∀ e1 ∈ q1.2, ∀ e2 ∈ q2.2, bytesLt e1.1 e2.1 :=
        fun q1 h1 q2 h2 hlt e1 he1 e2 he2 =>
          hcm p hp q1 (hml2 q1 h1) q2 (hml2 q2 h2) hlt e1 he1 e2 he2
      have hnames : (ml.map (fun q => q.1)).Pairwise (fun a b => strLt a b) := by
        rw [List.pairwise_map]
        exact hmlpw
      have hnd : (ml.map (fun q => q.1)).Pairwise (fun a b => a ≠ b) := by
        refine hnames.imp ?_
        intro a b h he
        rw [he] at h
        exact strLt_irrefl2 b h
      exact getSpansGo_spec ml hcm' hes' (effLimit n)
        (sortDescStr (ml.map (fun q => q.1))) [] (Nat.zero_le _) List.Pairwise.nil
        (sortDescStr_desc (ml.map (fun q => q.1)) hnd)
        (fun k hk => absurd hk (List.not_mem_nil k))
  have hlen : (getSpans st svc n).length ≤ effLimit n := by
    unfold getSpans
    rw [List.length_map]
    exact hmain.1
  refine ⟨hlen, hmain.2, fun hn => by unfold effLimit; rw [if_pos hn], ?_⟩
  intro hnone
  unfold getSpans getSpansKeyed
  rw [hnone]
  rfl

/-- Witness for spec_c1 on the concrete one-record store built by the write
path. -/
theorem spec_c1_witness :
    (getSpans wSt "websvc" 3).length ≤ effLimit 3 ∧
    ((getSpansKeyed wSt "websvc" 3).map Prod.fst).Pairwise (fun a b => bytesLt b a) ∧
    ((3 : Int) ≤ 0 → effLimit 3 = 50) ∧
    (lookupSvc wSt "websvc" = none → getSpans wSt "websvc" 3 = []) :=
  spec_c1 wSt "websvc" 3 (by decide)

/-! ## Claim C2 (GetSpanTree window: inclusive at ±2 min, exclusive beyond) -/

theorem lookupMonth_of_mem : ∀ ml : MonthList,
    ml.Pairwise (fun a b => strLt a.1 b.1) →
    ∀ q ∈ ml, lookupMonth ml q.1 = some q.2
  | [], _, q, hq => absurd hq (List.not_mem_nil q)
  | r :: rest, hpw, q, hq => by
    obtain ⟨hr1, hrest⟩ := List.pairwise_cons.mp hpw
    rcases List.mem_cons.mp hq with hq | hq
    · rw [hq]
      exact lookupMonth_cons_eq r rest
    · have hne : r.1 ≠ q.1 := fun he => strLt_irrefl2 q.1 (he ▸ hr1 q hq)
      rw [lookupMonth_cons_ne r rest q.1 hne]
      exact lookupMonth_of_mem rest hrest q hq

theorem keyInRange_true_iff (lo hi k : List Nat) :
    keyInRange lo hi k = true ↔
      (bytesCmp k lo ≠ Ordering.lt ∧ bytesCmp hi k ≠ Ordering.lt) := by
  unfold keyInRange
  rcases bytesCmp k lo with - | - | - <;> rcases bytesCmp hi k with - | - | - <;> decide

/-- Claim C2 counterexample: for an anchor that starts less than 2 minutes
after the Unix epoch (here 60 seconds — a small, fully representable uint64
start taken unchanged through int64 and stored by an ordinary write), the
lower window time anchor.start - 2 min lies before the epoch; ulid.Timestamp
passes its negative Unix seconds through uint64, the wrapped millisecond
count begins with 0xff bytes, and the lower bound key lands above every
stored key.  The scanned range is empty, so the stored same-trace span at
exactly anchor.start + 2 minutes is NOT returned, refuting the unqualified
inclusive-at-boundary claim. -/
theorem spec_c2_cex :
    findSpanByID cexSt cexSid = some cexAnchor ∧
    (∃ p ∈ cexSt, ∃ q ∈ p.2, ∃ e ∈ q.2, e.2 = some cexSpanP) ∧
    hexEncode cexSpanP.traceId = cexAnchor.traceID ∧
    (cexSpanP.startTimeUnixNano : Int) = cexAnchor.startNanos + 120000000000 ∧
    buildSummary cexSpanP (monthOfNanos (cexSpanP.startTimeUnixNano : Int)) ∉
      (getSpanTree cexSt cexSid).2 := by
  refine ⟨by decide, ?_, by decide, by decide, by decide⟩
  decide

/-- Claim C2 (amended): for an anchor found by GetSpanTree that starts at
least 2 minutes after the Unix epoch — forced by the counterexample, where an
earlier anchor wraps the lower window bound — and whose start is a
non-negative int64 nanosecond count (the span start is a uint64 protobuf
field that the program reads through int64(), so every decodable anchor
satisfies this; it keeps the model's unbounded natural inside the program's
actual domain), the window scan over a well-formed store is inclusive at both
boundaries and exclusive beyond them: every stored same-trace span starting
exactly at anchor.start ± 2 min is returned, every returned span starts
within [ms(from), ms(to)] milliseconds, and hence a span at
anchor.start ± (2 min + 1 ms) is never returned. -/
theorem spec_c2 (st : Store) (hwf : WF st) (sid : List Nat) (anchor : SpanSummary)
    (hanch : findSpanByID st sid = some anchor)
    (hS0 : 120000000000 ≤ anchor.startNanos)
    (hS63 : anchor.startNanos < 9223372036854775808) :
    (∀ p ∈ st, ∀ q ∈ p.2, ∀ e ∈ q.2, ∀ sp : Span, e.2 = some sp →
      hexEncode sp.traceId = anchor.traceID →
      ((sp.startTimeUnixNano : Int) = anchor.startNanos - 120000000000 ∨
        (sp.startTimeUnixNano : Int) = anchor.startNanos + 120000000000) →
      buildSummary sp q.1 ∈ (getSpanTree st sid).2) ∧
    (∀ s ∈ (getSpanTree st sid).2,
      msOfNanos (anchor.startNanos - 120000000000) ≤ msOfNanos s.startNanos ∧
      msOfNanos s.startNanos ≤ msOfNanos (anchor.startNanos + 120000000000)) ∧
    (∀ s ∈ (getSpanTree st sid).2,
      s.startNanos ≠ anchor.startNanos + 120000000000 + 1000000 ∧
      s.startNanos ≠ anchor.startNanos - 120000000000 - 1000000) := by
  obtain ⟨⟨hsv, hmsrt, hesrt⟩, hkwf, hcm⟩ := hwf
  have hgt : (getSpanTree st sid).2 =
      scanWindow st anchor.traceID (anchor.startNanos - 120000000000)
        (anchor.startNanos + 120000000000) := by
    unfold getSpanTree
    rw [hanch]
  have hsw : scanWindow st anchor.traceID (anchor.startNanos - 120000000000)
        (anchor.startNanos + 120000000000) =
      st.flatMap (fun p =>
        (monthsInRange (anchor.startNanos - 120000000000)
            (anchor.startNanos + 120000000000)).flatMap (fun m =>
          match lookupMonth p.2 m with
          | none => []
          | some es =>
            (es.filter (fun e =>
              keyInRange
                (timeBoundKey (msOfNanos (anchor.startNanos - 120000000000)) 0)
                (timeBoundKey (msOfNanos (anchor.startNanos + 120000000000)) 255)
                e.1)).filterMap (fun e =>
              match e.2 with
              | none => none
              | some sp =>
                if hexEncode sp.traceId = anchor.traceID then
                  some (buildSummary sp m)
                else none))) := rfl
  have hft : msOfNanos (anchor.startNanos - 120000000000) + 240000 =
      msOfNanos (anchor.startNanos + 120000000000) := by
    unfold msOfNanos
    omega
  have hmsT48 : msOfNanos (anchor.startNanos + 120000000000) < 281474976710656 := by
    unfold msOfNanos
    omega
  have hmsF48 : msOfNanos (anchor.startNanos - 120000000000) < 281474976710656 := by
    omega
  have hfle : anchor.startNanos - 120000000000 ≤ anchor.startNanos + 120000000000 := by
    omega
  have hexcl : ∀ s ∈ (getSpanTree st sid).2,
      msOfNanos (anchor.startNanos - 120000000000) ≤ msOfNanos s.startNanos ∧
      msOfNanos s.startNanos ≤ msOfNanos (anchor.startNanos + 120000000000) := by
    intro s hs
    rw [hgt, hsw] at hs
    obtain ⟨p, hp, hs⟩ := List.mem_flatMap.mp hs
    obtain ⟨m, hmm, hs⟩ := List.mem_flatMap.mp hs
    have hs' : s ∈ ((match lookupMonth p.2 m with
      | none => []
      | some es =>
        (es.filter (fun e =>
          keyInRange
            (timeBoundKey (msOfNanos (anchor.startNanos - 120000000000)) 0)
            (timeBoundKey (msOfNanos (anchor.startNanos + 120000000000)) 255)
            e.1)).filterMap (fun e =>
          match e.2 with
          | none => none
          | some sp =>
            if hexEncode sp.traceId = anchor.traceID then
              some (buildSummary sp m)
            else none)) : List SpanSummary) := hs
    rcases hlm : lookupMonth p.2 m with - | es
    · rw [hlm] at hs'
      exact absurd hs' (List.not_mem_nil s)
    · rw [hlm] at hs'
      obtain ⟨e, hef, hsome⟩ := List.mem_filterMap.mp hs'
      obtain ⟨he, hkr⟩ := List.mem_filter.mp hef
      have hqex : ∃ qq ∈ p.2, qq.1 = m ∧ qq.2 = es := by
        unfold lookupMonth at hlm
        rcases hf : p.2.find? (fun r => r.1 == m) with - | qq
        · rw [hf] at hlm
          exact Option.noConfusion hlm
        · rw [hf] at hlm
          injection hlm with hlm
          have hcq := List.find?_some hf
          have hcq' : (qq.1 == m) = true := hcq
          exact ⟨qq, List.mem_of_find?_eq_some hf, eq_of_beq hcq', hlm⟩
      obtain ⟨qq, hqqmem, hqq1, hqq2⟩ := hqex
      have heq2 : e ∈ qq.2 := by
        rw [hqq2]
        exact he
      obtain ⟨hlen24, hbytes, hval⟩ := hkwf p hp qq hqqmem e heq2
      rcases hv : e.2 with - | sp
      · rw [hv] at hsome
        exact Option.noConfusion hsome
      · rw [hv] at hsome
        have hsome' : (if hexEncode sp.traceId = anchor.traceID
            then some (buildSummary sp m) else none) = some s := hsome
        by_cases htid : hexEncode sp.traceId = anchor.traceID
        · rw [if_pos htid] at hsome'
          injection hsome' with hsome'
          rw [hv] at hval
          obtain ⟨hms48, htake, hmonth⟩ := hval
          have hkeysplit : e.1 =
              msBytes (msOfNanos (sp.startTimeUnixNano : Int)) ++ e.1.drop 6 := by
            conv_lhs => rw [← List.take_append_drop 6 e.1]
            rw [htake]
          have hkr' := (keyInRange_true_iff _ _ _).mp hkr
          obtain ⟨hk1, hk2⟩ := hkr'
          have hlow : msOfNanos (anchor.startNanos - 120000000000) ≤
              msOfNanos (sp.startTimeUnixNano : Int) := by
            by_contra hcon
            have hcon' := Nat.lt_of_not_le hcon
            apply hk1
            show bytesCmp e.1
              (msBytes (msOfNanos (anchor.startNanos - 120000000000)) ++
                List.replicate 18 0) = Ordering.lt
            rw [hkeysplit,
              bytesCmp_append (msBytes (msOfNanos (sp.startTimeUnixNano : Int)))
                (msBytes (msOfNanos (anchor.startNanos - 120000000000)))
                (e.1.drop 6) (List.replicate 18 0)
                (by rw [msBytes_length, msBytes_length]),
              msBytes_lt_of_lt _ _ hcon' hmsF48]
          have hhigh : msOfNanos (sp.startTimeUnixNano : Int) ≤
              msOfNanos (anchor.startNanos + 120000000000) := by
            by_contra hcon
            have hcon' := Nat.lt_of_not_le hcon
            apply hk2
            show bytesCmp
              (msBytes (msOfNanos (anchor.startNanos + 120000000000)) ++
                List.replicate 18 255) e.1 = Ordering.lt
            rw [hkeysplit,
              bytesCmp_append (msBytes (msOfNanos (anchor.startNanos + 120000000000)))
                (msBytes (msOfNanos (sp.startTimeUnixNano : Int)))
                (List.replicate 18 255) (e.1.drop 6)
                (by rw [msBytes_length, msBytes_length]),
              msBytes_lt_of_lt _ _ hcon' hms48]
          rw [← hsome']
          exact ⟨hlow, hhigh⟩
        · rw [if_neg htid] at hsome'
          exact Option.noConfusion hsome'
  refine ⟨?_, hexcl, ?_⟩
  · intro p hp q hq e he sp hesp htid hstart
    obtain ⟨hlen24, hbytes, hval⟩ := hkwf p hp q hq e he
    rw [hesp] at hval
    obtain ⟨hms48, htake, hmonth⟩ := hval
    have hkeysplit : e.1 =
        msBytes (msOfNanos (sp.startTimeUnixNano : Int)) ++ e.1.drop 6 := by
      conv_lhs => rw [← List.take_append_drop 6 e.1]
      rw [htake]
    have hdlen : (e.1.drop 6).length = 18 := by
      rw [List.length_drop, hlen24]
    have hdbytes : ∀ b ∈ e.1.drop 6, b < 256 :=
      fun b hb => hbytes b (List.drop_subset 6 e.1 hb)
    have hkr : keyInRange
        (timeBoundKey (msOfNanos (anchor.startNanos - 120000000000)) 0)
        (timeBoundKey (msOfNanos (anchor.startNanos + 120000000000)) 255) e.1
        = true := by
      rw [keyInRange_true_iff]
      constructor
      · show bytesCmp e.1
          (msBytes (msOfNanos (anchor.startNanos - 120000000000)) ++
            List.replicate 18 0) ≠ Ordering.lt
        rcases hstart with hst | hst
        · rw [hkeysplit, hst,
            bytesCmp_append (msBytes (msOfNanos (anchor.startNanos - 120000000000)))
              (msBytes (msOfNanos (anchor.startNanos - 120000000000)))
              (e.1.drop 6) (List.replicate 18 0) rfl,
            bytesCmp_refl']
          exact bytesCmp_ne_lt_replicate_zero _ 18 hdlen
        · have hgtp : bytesCmp
              (msBytes (msOfNanos (anchor.startNanos + 120000000000)))
              (msBytes (msOfNanos (anchor.startNanos - 120000000000))) =
              Ordering.gt := by
            rw [bytesCmp_gt_iff]
            exact msBytes_lt_of_lt _ _ (by omega) hmsT48
          rw [hkeysplit, hst,
            bytesCmp_append (msBytes (msOfNanos (anchor.startNanos + 120000000000)))
              (msBytes (msOfNanos (anchor.startNanos - 120000000000)))
              (e.1.drop 6) (List.replicate 18 0)
              (by rw [msBytes_length, msBytes_length]),
            hgtp]
          intro hcon
          exact Ordering.noConfusion hcon
      · show bytesCmp
          (msBytes (msOfNanos (anchor.startNanos + 120000000000)) ++
            List.replicate 18 255) e.1 ≠ Ordering.lt
        rcases hstart with hst | hst
        · have hgtp : bytesCmp
              (msBytes (msOfNanos (anchor.startNanos + 120000000000)))
              (msBytes (msOfNanos (anchor.startNanos - 120000000000))) =
              Ordering.gt := by
            rw [bytesCmp_gt_iff]
            exact msBytes_lt_of_lt _ _ (by omega) hmsT48
          rw [hkeysplit, hst,
            bytesCmp_append (msBytes (msOfNanos (anchor.startNanos + 120000000000)))
              (msBytes (msOfNanos (anchor.startNanos - 120000000000)))
              (List.replicate 18 255) (e.1.drop 6)
              (by rw [msBytes_length, msBytes_length]),
            hgtp]
          intro hcon
          exact Ordering.noConfusion hcon
        · rw [hkeysplit, hst,
            bytesCmp_append (msBytes (msOfNanos (anchor.startNanos + 120000000000)))
              (msBytes (msOfNanos (anchor.startNanos + 120000000000)))
              (List.replicate 18 255) (e.1.drop 6) rfl,
            bytesCmp_refl']
          intro hcon
          have hcon' : bytesCmp (List.replicate 18 255) (e.1.drop 6) =
              Ordering.lt := hcon
          exact bytesCmp_ne_gt_replicate_ff _ 18 hdlen hdbytes
            ((bytesCmp_gt_iff _ _).mpr hcon')
    have hmm : q.1 ∈ monthsInRange (anchor.startNanos - 120000000000)
        (anchor.startNanos + 120000000000) := by
      rw [hmonth]
      rcases hstart with hst | hst
      · rw [hst]
        exact mem_monthsInRange_left _ _ hfle
      · rw [hst]
        exact mem_monthsInRange_right _ _ hfle
    have hlook := lookupMonth_of_mem p.2 (hmsrt p hp) q hq
    have hinner : buildSummary sp q.1 ∈
        ((q.2.filter (fun e =>
          keyInRange
            (timeBoundKey (msOfNanos (anchor.startNanos - 120000000000)) 0)
            (timeBoundKey (msOfNanos (anchor.startNanos + 120000000000)) 255)
            e.1)).filterMap (fun e =>
          match e.2 with
          | none => none
          | some sp =>
            if hexEncode sp.traceId = anchor.traceID then
              some (buildSummary sp q.1)
            else none) : List SpanSummary) := by
      refine List.mem_filterMap.mpr ⟨e, List.mem_filter.mpr ⟨he, hkr⟩, ?_⟩
      rw [hesp]
      show (if hexEncode sp.traceId = anchor.traceID then some (buildSummary sp q.1)
        else none) = some (buildSummary sp q.1)
      rw [if_pos htid]
    rw [hgt, hsw]
    refine List.mem_flatMap.mpr ⟨p, hp, List.mem_flatMap.mpr ⟨q.1, hmm, ?_⟩⟩
    show buildSummary sp q.1 ∈ ((match lookupMonth p.2 q.1 with
      | none => []
      | some es =>
        (es.filter (fun e =>
          keyInRange
            (timeBoundKey (msOfNanos (anchor.startNanos - 120000000000)) 0)
            (timeBoundKey (msOfNanos (anchor.startNanos + 120000000000)) 255)
            e.1)).filterMap (fun e =>
          match e.2 with
          | none => none
          | some sp =>
            if hexEncode sp.traceId = anchor.traceID then
              some (buildSummary sp q.1)
            else none)) : List SpanSummary)
    rw [hlook]
    exact hinner
  · intro s hs
    have h2 := hexcl s hs
    constructor
    · intro heq
      rw [heq] at h2
      unfold msOfNanos at h2
      omega
    · intro heq
      rw [heq] at h2
      unfold msOfNanos at h2
      omega

/-- Witness for spec_c2 on a concrete two-span store: an anchor and a
same-trace peer exactly 2 minutes later. -/
theorem spec_c2_witness :
    (∀ p ∈ wSt2, ∀ q ∈ p.2, ∀ e ∈ q.2, ∀ sp : Span, e.2 = some sp →
      hexEncode sp.traceId = wAnchor.traceID →
      ((sp.startTimeUnixNano : Int) = wAnchor.startNanos - 120000000000 ∨
        (sp.startTimeUnixNano : Int) = wAnchor.startNanos + 120000000000) →
      buildSummary sp q.1 ∈ (getSpanTree wSt2 wSid).2) ∧
    (∀ s ∈ (getSpanTree wSt2 wSid).2,
      msOfNanos (wAnchor.startNanos - 120000000000) ≤ msOfNanos s.startNanos ∧
      msOfNanos s.startNanos ≤ msOfNanos (wAnchor.startNanos + 120000000000)) ∧
    (∀ s ∈ (getSpanTree wSt2 wSid).2,
      s.startNanos ≠ wAnchor.startNanos + 120000000000 + 1000000 ∧
      s.startNanos ≠ wAnchor.startNanos - 120000000000 - 1000000) :=
  spec_c2 wSt2 (by decide) wSid wAnchor (by rfl) (by decide) (by decide)

end OtelStor
